import Mathlib

/-!
Shallow embedding of the event broker of `src/udev/udevd.c` (the udev daemon):
the event queue, the blocking relation `is_devpath_busy`, the worker pool and
its lifecycle handlers, and the reactor loop that maintains the
`/run/udev/queue` marker.  Machine strings (`devpath`) are modelled as
`List Char`; C `dev_t` as a major/minor pair of naturals; pids and seqnums as
naturals; the cross links between workers and events are stored as keys
(pid, seqnum), mirroring the paired back-pointers of the C source.
-/

namespace Udevd

/-- `dev_t`: a major/minor device number pair.  `⟨0, 0⟩` means "not a device
node". -/
structure Devnum where
  major : Nat
  minor : Nat
deriving DecidableEq, Repr

/-- `enum event_state` from udevd.c (EVENT_UNDEF is only used as a cleanup
filter wildcard and is modelled by `Option.none` on the filter side). -/
inductive EventState where
  | queued
  | running
deriving DecidableEq, Repr

/-- `enum worker_state` from udevd.c. -/
inductive WorkerState where
  | undef
  | running
  | idle
  | killed
deriving DecidableEq, Repr

/-- `struct event` from udevd.c.  `devpath_len` is not stored separately:
`event_queue_insert` always sets it to `strlen(devpath)`, so the embedding
uses `devpath.length`.  The `worker` back-pointer is stored as a pid key,
the `dev` / `dev_kernel` device handles as opaque naturals. -/
structure Event where
  seqnum : Nat
  devpath : List Char
  devpath_old : Option (List Char)
  devnum : Devnum
  ifindex : Nat
  is_block : Bool
  state : EventState
  delaying_seqnum : Nat
  worker : Option Nat
  start_usec : Nat
  warned : Bool
  dev : Nat
  dev_kernel : Nat
deriving DecidableEq, Repr

/-- `struct worker` from udevd.c.  The `event` pointer is stored as a seqnum
key; `monitor`, `refcount` and `udev` handles are external collaborators and
carry no broker state. -/
structure Worker where
  pid : Nat
  state : WorkerState
  event : Option Nat
deriving DecidableEq, Repr

/-- The NUL terminator read by `devpath[common]` when `common` equals the
string length. -/
def nulChar : Char := Char.ofNat 0

/-- `is_devpath_busy` (udevd.c lines 518-587): scan the queue for an event the
argument depends on.  Returns the C function's boolean result together with
the event as left behind by the scan (the C code mutates
`event->delaying_seqnum` in place). -/
def is_devpath_busy (event : Event) : List Event → Bool × Event
  | [] => (false, event)
  | loop_event :: rest =>
    -- we already found a later event, earlier can not block us
    if loop_event.seqnum < event.delaying_seqnum then
      is_devpath_busy event rest
    -- event we checked earlier still exists, no need to check again
    else if loop_event.seqnum = event.delaying_seqnum then
      (true, event)
    -- found ourself, no later event can block us
    else if event.seqnum ≤ loop_event.seqnum then
      (false, event)
    -- check major/minor
    else if event.devnum.major ≠ 0 ∧ event.devnum = loop_event.devnum ∧
        event.is_block = loop_event.is_block then
      (true, event)
    -- check network device ifindex
    else if event.ifindex ≠ 0 ∧ event.ifindex = loop_event.ifindex then
      (true, event)
    -- check our old name: devpath_old is set and equals loop_event's devpath
    else if event.devpath_old = some loop_event.devpath then
      (true, { event with delaying_seqnum := loop_event.seqnum })
    -- compare devpath: memcmp over the first `common` characters
    else if loop_event.devpath.take (min loop_event.devpath.length event.devpath.length) ≠
        event.devpath.take (min loop_event.devpath.length event.devpath.length) then
      is_devpath_busy event rest
    -- identical device event found
    else if loop_event.devpath.length = event.devpath.length then
      -- devices names might have changed/swapped in the meantime
      if event.devnum.major ≠ 0 ∧ (event.devnum ≠ loop_event.devnum ∨
          event.is_block ≠ loop_event.is_block) then
        is_devpath_busy event rest
      else if event.ifindex ≠ 0 ∧ event.ifindex ≠ loop_event.ifindex then
        is_devpath_busy event rest
      else
        (true, { event with delaying_seqnum := loop_event.seqnum })
    -- parent device event found
    else if event.devpath.getD (min loop_event.devpath.length event.devpath.length) nulChar = '/' then
      (true, { event with delaying_seqnum := loop_event.seqnum })
    -- child device event found
    else if loop_event.devpath.getD (min loop_event.devpath.length event.devpath.length) nulChar = '/' then
      (true, { event with delaying_seqnum := loop_event.seqnum })
    -- no matching device
    else
      is_devpath_busy event rest

/-- Blocking conditions 1 (same device node) and 2 (same network interface):
the two tests of `is_devpath_busy` that return `true` without touching
`delaying_seqnum`. -/
def cond12 (e L : Event) : Prop :=
  (e.devnum.major ≠ 0 ∧ e.devnum = L.devnum ∧ e.is_block = L.is_block) ∨
  (e.ifindex ≠ 0 ∧ e.ifindex = L.ifindex)

instance (e L : Event) : Decidable (cond12 e L) := by
  unfold cond12; infer_instance

/-- Whether the body of the `is_devpath_busy` scan returns `true` at queue
entry `L` (the blocking conditions 1-6, cascaded exactly as in the C code;
the scan-control tests on seqnums are not part of this). -/
def blocks_here (e L : Event) : Bool :=
  if e.devnum.major ≠ 0 ∧ e.devnum = L.devnum ∧ e.is_block = L.is_block then
    true
  else if e.ifindex ≠ 0 ∧ e.ifindex = L.ifindex then
    true
  else if e.devpath_old = some L.devpath then
    true
  else if L.devpath.take (min L.devpath.length e.devpath.length) ≠
      e.devpath.take (min L.devpath.length e.devpath.length) then
    false
  else if L.devpath.length = e.devpath.length then
    if e.devnum.major ≠ 0 ∧ (e.devnum ≠ L.devnum ∨ e.is_block ≠ L.is_block) then
      false
    else if e.ifindex ≠ 0 ∧ e.ifindex ≠ L.ifindex then
      false
    else
      true
  else if e.devpath.getD (min L.devpath.length e.devpath.length) nulChar = '/' then
    true
  else if L.devpath.getD (min L.devpath.length e.devpath.length) nulChar = '/' then
    true
  else
    false

/-- The event as left behind when the scan returns `true` at entry `L` via a
blocking condition: conditions 1 and 2 leave it unchanged, conditions 3-6
record `delaying_seqnum := seqnum(L)`. -/
def busy_update (e L : Event) : Event :=
  if cond12 e L then e else { e with delaying_seqnum := L.seqnum }

theorem is_devpath_busy_skip (e L : Event) (rest : List Event)
    (h : L.seqnum < e.delaying_seqnum) :
    is_devpath_busy e (L :: rest) = is_devpath_busy e rest := by
  simp [is_devpath_busy, h]

theorem is_devpath_busy_memo_hit (e L : Event) (rest : List Event)
    (h2 : L.seqnum = e.delaying_seqnum) :
    is_devpath_busy e (L :: rest) = (true, e) := by
  simp [is_devpath_busy, h2]

theorem is_devpath_busy_brk (e L : Event) (rest : List Event)
    (h1 : ¬ L.seqnum < e.delaying_seqnum) (h2 : L.seqnum ≠ e.delaying_seqnum)
    (h3 : e.seqnum ≤ L.seqnum) :
    is_devpath_busy e (L :: rest) = (false, e) := by
  simp [is_devpath_busy, h1, h2, h3]

theorem is_devpath_busy_cons_true (e L : Event) (rest : List Event)
    (h1 : ¬ L.seqnum < e.delaying_seqnum) (h2 : L.seqnum ≠ e.delaying_seqnum)
    (h3 : L.seqnum < e.seqnum) (hb : blocks_here e L = true) :
    is_devpath_busy e (L :: rest) = (true, busy_update e L) := by
  rw [is_devpath_busy, if_neg h1, if_neg h2, if_neg (not_le.mpr h3)]
  unfold blocks_here at hb
  unfold busy_update cond12
  split_ifs at hb ⊢ <;> first | rfl | tauto

theorem is_devpath_busy_cons_false (e L : Event) (rest : List Event)
    (h1 : ¬ L.seqnum < e.delaying_seqnum) (h2 : L.seqnum ≠ e.delaying_seqnum)
    (h3 : L.seqnum < e.seqnum) (hb : blocks_here e L = false) :
    is_devpath_busy e (L :: rest) = is_devpath_busy e rest := by
  rw [is_devpath_busy, if_neg h1, if_neg h2, if_neg (not_le.mpr h3)]
  unfold blocks_here at hb
  split_ifs at hb ⊢ <;> simp_all

/-- The event queue is kept in insertion order, which equals kernel seqnum
order (udevd.c data-model invariant: seqnums are monotonically increasing and
unique, `event_queue_insert` appends at the tail). -/
def SortedBySeq (q : List Event) : Prop :=
  q.Pairwise (fun a b => a.seqnum < b.seqnum)

instance (q : List Event) : Decidable (SortedBySeq q) := by
  unfold SortedBySeq; infer_instance

theorem blocks_here_of_cond1 (e L : Event) (hmaj : e.devnum.major ≠ 0)
    (hnum : e.devnum = L.devnum) (hblk : e.is_block = L.is_block) :
    blocks_here e L = true := by
  unfold blocks_here
  rw [if_pos ⟨hmaj, hnum, hblk⟩]

/-- `devpath(a)` is a proper prefix of `devpath(b)` separated by `/`: the
character of `b.devpath` right after the common prefix is a slash. -/
def slashAncestor (a b : Event) : Prop :=
  a.devpath.length < b.devpath.length ∧
  b.devpath.take a.devpath.length = a.devpath ∧
  b.devpath.getD a.devpath.length nulChar = '/'

instance (a b : Event) : Decidable (slashAncestor a b) := by
  unfold slashAncestor; infer_instance

theorem blocks_here_of_ancestor (e L : Event) (h : slashAncestor L e) :
    blocks_here e L = true := by
  obtain ⟨hlen, htake, hch⟩ := h
  have hmin : min L.devpath.length e.devpath.length = L.devpath.length :=
    min_eq_left (le_of_lt hlen)
  unfold blocks_here
  rw [hmin]
  split_ifs <;> first
    | rfl
    | omega
    | simp_all

theorem blocks_here_of_descendant (e L : Event) (h : slashAncestor e L) :
    blocks_here e L = true := by
  obtain ⟨hlen, htake, hch⟩ := h
  have hmin : min L.devpath.length e.devpath.length = e.devpath.length :=
    min_eq_right (le_of_lt hlen)
  have hnul : e.devpath.getD e.devpath.length nulChar = nulChar :=
    List.getD_eq_default _ _ le_rfl
  unfold blocks_here
  rw [hmin]
  split_ifs <;> first
    | rfl
    | omega
    | simp_all

/-- If a sorted queue contains an entry `L` below `e`'s seqnum, at or above
`e`'s memo, and matching a blocking condition, the scan reports `e` busy. -/
theorem is_devpath_busy_fst_true_of_mem (e : Event) (q : List Event) (L : Event)
    (hs : SortedBySeq q) (hm : L ∈ q) (hd : e.delaying_seqnum ≤ L.seqnum)
    (hlt : L.seqnum < e.seqnum) (hb : blocks_here e L = true) :
    (is_devpath_busy e q).1 = true := by
  induction q with
  | nil => cases hm
  | cons M rest ih =>
    rcases List.mem_cons.mp hm with rfl | hmem
    · by_cases hmemo : L.seqnum = e.delaying_seqnum
      · rw [is_devpath_busy_memo_hit e L rest hmemo]
      · rw [is_devpath_busy_cons_true e L rest (not_lt.mpr hd) hmemo hlt hb]
    · have hMlt : M.seqnum < L.seqnum := (List.pairwise_cons.mp hs).1 L hmem
      have hsrest : SortedBySeq rest := (List.pairwise_cons.mp hs).2
      by_cases hskip : M.seqnum < e.delaying_seqnum
      · rw [is_devpath_busy_skip e M rest hskip]; exact ih hsrest hmem
      · by_cases hmemo : M.seqnum = e.delaying_seqnum
        · rw [is_devpath_busy_memo_hit e M rest hmemo]
        · have hMe : M.seqnum < e.seqnum := lt_trans hMlt hlt
          by_cases hbM : blocks_here e M = true
          · rw [is_devpath_busy_cons_true e M rest hskip hmemo hMe hbM]
          · rw [is_devpath_busy_cons_false e M rest hskip hmemo hMe
              (Bool.not_eq_true _ ▸ hbM)]
            exact ih hsrest hmem

/-- An all-default test event used to build concrete broker states. -/
def mkEvent (sq : Nat) (dp : String) : Event :=
  { seqnum := sq, devpath := dp.toList, devpath_old := none, devnum := ⟨0, 0⟩,
    ifindex := 0, is_block := false, state := .queued, delaying_seqnum := 0,
    worker := none, start_usec := 0, warned := false, dev := 0, dev_kernel := 0 }

/-- Later event with `devnum = 0:5`: non-zero as a pair, zero major. -/
def c1E : Event := { mkEvent 2 "/devices/a" with devnum := ⟨0, 5⟩ }

/-- Earlier queued event with the same `devnum = 0:5` and block flag. -/
def c1L : Event := { mkEvent 1 "/devices/b" with devnum := ⟨0, 5⟩ }

/-- C1 fails as stated: `is_devpath_busy` tests `major(devnum) != 0`, not
`devnum != 0`.  Here `seqnum(L) < seqnum(E)`, `devnum(E) = devnum(L) = 0:5 ≠
0:0` and `is_block(E) = is_block(L)`, yet the scan reports E not blocked,
because `major` is zero. -/
theorem c1_counterexample :
    c1L.seqnum < c1E.seqnum ∧ c1E.devnum ≠ ⟨0, 0⟩ ∧ c1E.devnum = c1L.devnum ∧
    c1E.is_block = c1L.is_block ∧ c1E.delaying_seqnum = 0 ∧
    (is_devpath_busy c1E [c1L]).1 = false := by
  decide

/-- C1 (amended): for every pair of events `E` and `L` in the seqnum-sorted
event queue with `seqnum(L) < seqnum(E)` and the memo invariant
`delaying_seqnum(E) ≤ seqnum(L)`, if `major(devnum(E)) ≠ 0` and
`devnum(E) = devnum(L)` and `is_block(E) = is_block(L)`, then
`is_devpath_busy(E)` reports `E` as blocked. -/
theorem c1_devnum_blocking (q : List Event) (e L : Event)
    (hs : SortedBySeq q) (hm : L ∈ q) (hd : e.delaying_seqnum ≤ L.seqnum)
    (hlt : L.seqnum < e.seqnum) (hmaj : e.devnum.major ≠ 0)
    (hnum : e.devnum = L.devnum) (hblk : e.is_block = L.is_block) :
    (is_devpath_busy e q).1 = true :=
  is_devpath_busy_fst_true_of_mem e q L hs hm hd hlt
    (blocks_here_of_cond1 e L hmaj hnum hblk)

/-- Later event with a real (non-zero-major) devnum shared with `c1wL`. -/
def c1wE : Event := { mkEvent 2 "/devices/a" with devnum := ⟨8, 1⟩ }

/-- Earlier event sharing `c1wE`'s devnum. -/
def c1wL : Event := { mkEvent 1 "/devices/b" with devnum := ⟨8, 1⟩ }

theorem c1_devnum_blocking_witness : (is_devpath_busy c1wE [c1wL]).1 = true :=
  c1_devnum_blocking [c1wL] c1wE c1wL (by decide) (by decide) (by decide)
    (by decide) (by decide) (by decide) (by decide)

/-- C3: two distinct queued events whose devpaths are in the ancestor
relation (one devpath a proper `/`-separated prefix of the other) are related
by the blocking scan: `is_devpath_busy` on the later event reports it
blocked (with the memo invariant `delaying_seqnum ≤` the earlier seqnum). -/
theorem c3_prefix_blocks (q : List Event) (a b : Event)
    (hs : SortedBySeq q) (ham : a ∈ q) (_hbm : b ∈ q)
    (hab : a.seqnum < b.seqnum) (hd : b.delaying_seqnum ≤ a.seqnum)
    (hpre : slashAncestor a b ∨ slashAncestor b a) :
    (is_devpath_busy b q).1 = true := by
  rcases hpre with h | h
  · exact is_devpath_busy_fst_true_of_mem b q a hs ham hd hab
      (blocks_here_of_ancestor b a h)
  · exact is_devpath_busy_fst_true_of_mem b q a hs ham hd hab
      (blocks_here_of_descendant b a h)

/-- Ancestor event on `/devices/pci`. -/
def c3A : Event := mkEvent 1 "/devices/pci"

/-- Descendant event on `/devices/pci/a`. -/
def c3B : Event := mkEvent 2 "/devices/pci/a"

theorem c3_prefix_blocks_witness : (is_devpath_busy c3B [c3A, c3B]).1 = true :=
  c3_prefix_blocks [c3A, c3B] c3A c3B (by decide) (by decide) (by decide)
    (by decide) (by decide) (Or.inl (by decide))

/-- A queue entry the memoized scan passes over without returning: either
skipped because its seqnum is below the memo, or tested against the blocking
conditions and found non-blocking. -/
def scan_passes (e M : Event) : Prop :=
  M.seqnum < e.delaying_seqnum ∨
  (M.seqnum ≠ e.delaying_seqnum ∧ M.seqnum < e.seqnum ∧ blocks_here e M = false)

instance (e M : Event) : Decidable (scan_passes e M) := by
  unfold scan_passes; infer_instance

/-- C2 fails as stated: a first match via condition 1 (same major/minor) or 2
(same ifindex) returns true WITHOUT recording `delaying_seqnum`.  Here the
single queue entry matches condition 1, the scan returns true, and the
event's `delaying_seqnum` stays 0 instead of `seqnum(L) = 1`. -/
theorem c2_counterexample :
    blocks_here c1wE c1wL = true ∧ is_devpath_busy c1wE [c1wL] = (true, c1wE) ∧
    c1wE.delaying_seqnum ≠ c1wL.seqnum := by
  decide

/-- C2 (amended): when the scan returns true because `L` is the first entry
matching a blocking condition (all entries before `L` are passed over), the
call records `delaying_seqnum(E) := seqnum(L)` if the match is via conditions
3-6 (old name, identical devpath, parent, child), and returns true with
`delaying_seqnum(E)` unchanged if the match is via condition 1 (devnum) or 2
(ifindex). -/
theorem c2_first_match_delaying (e L : Event) (pre post : List Event)
    (hpre : ∀ M ∈ pre, scan_passes e M)
    (h1 : ¬ L.seqnum < e.delaying_seqnum) (h2 : L.seqnum ≠ e.delaying_seqnum)
    (h3 : L.seqnum < e.seqnum) (hb : blocks_here e L = true) :
    is_devpath_busy e (pre ++ L :: post) = (true, busy_update e L) := by
  induction pre with
  | nil => simpa using is_devpath_busy_cons_true e L post h1 h2 h3 hb
  | cons M pre ih =>
    have hM := hpre M (List.mem_cons_self M pre)
    have htail : ∀ N ∈ pre, scan_passes e N :=
      fun N hN => hpre N (List.mem_cons_of_mem M hN)
    rw [List.cons_append]
    by_cases hsk : M.seqnum < e.delaying_seqnum
    · rw [is_devpath_busy_skip e M _ hsk]; exact ih htail
    · rcases hM with hsk' | ⟨hne, hlt, hbf⟩
      · exact absurd hsk' hsk
      · rw [is_devpath_busy_cons_false e M _ hsk hne hlt hbf]; exact ih htail

/-- Event whose devpath equals `c2wL`'s, so the scan matches via condition 4
and must record the memo. -/
def c2wE : Event := { mkEvent 3 "/devices/x" with delaying_seqnum := 0 }

/-- Earlier event on the same devpath. -/
def c2wL : Event := mkEvent 2 "/devices/x"

/-- An unrelated earlier event the scan passes over. -/
def c2wM : Event := mkEvent 1 "/zzz"

theorem c2_first_match_delaying_witness :
    is_devpath_busy c2wE ([c2wM] ++ c2wL :: []) = (true, busy_update c2wE c2wL) :=
  c2_first_match_delaying c2wE c2wL [c2wM] [] (by decide) (by decide) (by decide)
    (by decide) (by decide)

/-- If an entry with exactly the memoized seqnum is still in the sorted
queue, the scan short-circuits to true without changing the event. -/
theorem is_devpath_busy_memo_mem (e : Event) (q : List Event) (L : Event)
    (hs : SortedBySeq q) (hm : L ∈ q) (heq : L.seqnum = e.delaying_seqnum) :
    is_devpath_busy e q = (true, e) := by
  induction q with
  | nil => cases hm
  | cons M rest ih =>
    rcases List.mem_cons.mp hm with rfl | hmem
    · exact is_devpath_busy_memo_hit e L rest heq
    · have hMlt : M.seqnum < L.seqnum := (List.pairwise_cons.mp hs).1 L hmem
      rw [is_devpath_busy_skip e M rest (by omega)]
      exact ih (List.pairwise_cons.mp hs).2 hmem

/-- Entries at or beyond the event's own seqnum stop the scan: the result
only depends on the strictly earlier part of the queue. -/
theorem is_devpath_busy_stop_at_self (e C : Event) (pre post : List Event)
    (hinv : e.delaying_seqnum < e.seqnum) (hge : e.seqnum ≤ C.seqnum) :
    is_devpath_busy e (pre ++ C :: post) = is_devpath_busy e pre := by
  induction pre with
  | nil =>
    rw [List.nil_append, is_devpath_busy_brk e C post (by omega) (by omega) hge,
      is_devpath_busy]
  | cons N pre ih =>
    rw [List.cons_append]
    by_cases hsk : N.seqnum < e.delaying_seqnum
    · rw [is_devpath_busy_skip e N _ hsk, is_devpath_busy_skip e N _ hsk, ih]
    · by_cases hmo : N.seqnum = e.delaying_seqnum
      · rw [is_devpath_busy_memo_hit e N _ hmo, is_devpath_busy_memo_hit e N _ hmo]
      · by_cases hbr : e.seqnum ≤ N.seqnum
        · rw [is_devpath_busy_brk e N _ hsk hmo hbr,
            is_devpath_busy_brk e N _ hsk hmo hbr]
        · by_cases hbh : blocks_here e N = true
          · rw [is_devpath_busy_cons_true e N _ hsk hmo (not_le.mp hbr) hbh,
              is_devpath_busy_cons_true e N _ hsk hmo (not_le.mp hbr) hbh]
          · rw [is_devpath_busy_cons_false e N _ hsk hmo (not_le.mp hbr)
                (Bool.not_eq_true _ ▸ hbh),
              is_devpath_busy_cons_false e N _ hsk hmo (not_le.mp hbr)
                (Bool.not_eq_true _ ▸ hbh), ih]

/-- C5: memoized-scan behaviour for `delaying_seqnum = s > 0` (with the data
model invariant `s < seqnum(E)`): (a) an entry below the memo is skipped
without testing the blocking conditions — the scan result is as if the entry
were absent; (b) if an entry with seqnum exactly `s` is still in the sorted
queue, the call short-circuits to true; (c) the scan stops at the first
entry with `seqnum ≥ seqnum(E)`: everything from that entry on is ignored,
and the scan returns false if the part before it finds no blocker. -/
theorem c5_memoized_scan (e A B C : Event) (q pre post : List Event)
    (_hpos : 0 < e.delaying_seqnum) (hinv : e.delaying_seqnum < e.seqnum) :
    (A.seqnum < e.delaying_seqnum →
      is_devpath_busy e (A :: q) = is_devpath_busy e q) ∧
    (SortedBySeq q → B ∈ q → B.seqnum = e.delaying_seqnum →
      is_devpath_busy e q = (true, e)) ∧
    (e.seqnum ≤ C.seqnum →
      is_devpath_busy e (pre ++ C :: post) = is_devpath_busy e pre) :=
  ⟨fun h => is_devpath_busy_skip e A q h,
   fun hs hm heq => is_devpath_busy_memo_mem e q B hs hm heq,
   fun hge => is_devpath_busy_stop_at_self e C pre post hinv hge⟩

/-- Event with a positive memo (`delaying_seqnum = 2 < seqnum = 4`). -/
def c5E : Event := { mkEvent 4 "/devices/x" with delaying_seqnum := 2 }

/-- Entry below the memo: skipped. -/
def c5A : Event := mkEvent 1 "/devices/x"

/-- Entry carrying exactly the memoized seqnum. -/
def c5B : Event := mkEvent 2 "/devices/y"

/-- Entry at/after the event's own seqnum: the scan stops there. -/
def c5C : Event := mkEvent 5 "/devices/x"

theorem c5_memoized_scan_witness :
    is_devpath_busy c5E (c5A :: [c5B]) = is_devpath_busy c5E [c5B] ∧
    is_devpath_busy c5E [c5B] = (true, c5E) ∧
    is_devpath_busy c5E ([c5A] ++ c5C :: [c5B]) = is_devpath_busy c5E [c5A] :=
  ⟨(c5_memoized_scan c5E c5A c5B c5C [c5B] [c5A] [c5B] (by decide) (by decide)).1
      (by decide),
   (c5_memoized_scan c5E c5A c5B c5C [c5B] [c5A] [c5B] (by decide) (by decide)).2.1
      (by decide) (by decide) (by decide),
   (c5_memoized_scan c5E c5A c5B c5C [c5B] [c5A] [c5B] (by decide) (by decide)).2.2
      (by decide)⟩

/-! ## Broker state: event queue and worker pool -/

/-- The broker's mutable globals: the event list (`event_list`) and the
worker map (`workers`, a pid-keyed hashmap modelled as a list with unique
pids). -/
structure Broker where
  events : List Event
  workers : List Worker
deriving DecidableEq, Repr

/-- The uevent payload consumed by `event_queue_insert`: the device
attributes the broker captures, plus an opaque handle `id` standing for the
`struct udev_device`. -/
structure Device where
  seqnum : Nat
  devpath : List Char
  devpath_old : Option (List Char)
  devnum : Devnum
  subsystem : List Char
  ifindex : Nat
  id : Nat
deriving DecidableEq, Repr

/-- The subsystem string compared by `streq("block", ...)`. -/
def blockSubsystem : List Char := "block".toList

/-- `event_queue_insert` (udevd.c lines 477-502): build an event from the
device and append it to the tail of the queue.  `dev_kernel` is the shallow
clone of the incoming kernel device taken before rule processing. -/
def event_queue_insert (st : Broker) (d : Device) : Broker :=
  { st with events := st.events ++
      [{ seqnum := d.seqnum, devpath := d.devpath, devpath_old := d.devpath_old,
         devnum := d.devnum, ifindex := d.ifindex,
         is_block := d.subsystem == blockSubsystem,
         state := .queued, delaying_seqnum := 0, worker := none,
         start_usec := 0, warned := false, dev := d.id, dev_kernel := d.id }] }

/-- `event->worker->event = NULL`: nil the event back-pointer of the worker
with pid `p`. -/
def nil_worker (p : Nat) (x : Worker) : Worker :=
  if x.pid == p then { x with event := none } else x

/-- Apply the back-pointer niling through the freed event's (possibly NULL)
worker pointer. -/
def nil_worker_opt (ws : List Worker) : Option Nat → List Worker
  | none => ws
  | some p => ws.map (nil_worker p)

/-- `event_free` on the looked-up queue entry. -/
def event_free_go (st : Broker) (s : Nat) : Option Event → Broker
  | none => st
  | some e =>
    { events := st.events.filter (fun x => x.seqnum != s),
      workers := nil_worker_opt st.workers e.worker }

/-- `event_free` (udevd.c lines 130-142): remove the event with seqnum `s`
from the queue and nil the owning worker's back-pointer
(`event->worker->event = NULL`). -/
def event_free (st : Broker) (s : Nat) : Broker :=
  event_free_go st s (st.events.find? (fun e => e.seqnum == s))

/-- `event_free` called through a possibly-NULL event pointer (the C
function returns immediately when the pointer is NULL). -/
def event_free_opt (st : Broker) : Option Nat → Broker
  | none => st
  | some s => event_free st s

/-- `worker_free` on the looked-up worker. -/
def worker_free_go (st : Broker) (p : Nat) : Option Worker → Broker
  | none => st
  | some w =>
    event_free_opt { st with workers := st.workers.filter (fun x => x.pid != p) }
      w.event

/-- `worker_free` (udevd.c lines 144-154): remove the worker from the pid
map, then free its attached event. -/
def worker_free (st : Broker) (p : Nat) : Broker :=
  worker_free_go st p (st.workers.find? (fun w => w.pid == p))

/-- The per-worker effect of `worker_kill`: mark killed unless already
killed. -/
def kill_worker (w : Worker) : Worker :=
  if w.state == WorkerState.killed then w else { w with state := .killed }

/-- `worker_kill` (udevd.c lines 504-515): SIGTERM and mark every
not-yet-killed worker. -/
def worker_kill (st : Broker) : Broker :=
  { st with workers := st.workers.map kill_worker }

/-- The `match_type` filter of `event_queue_cleanup`: `none` is
`EVENT_UNDEF` (match everything). -/
def event_matches (ty : Option EventState) (e : Event) : Bool :=
  match ty with
  | none => true
  | some t => e.state == t

/-- The back-pointer niling `event_free` performs on a worker whose held
event key may be freed by `event_queue_cleanup`. -/
def cleanup_worker_go (st : Broker) (ty : Option EventState) (w : Worker) :
    Option Nat → Worker
  | some s =>
    if st.events.any (fun e => e.seqnum == s && event_matches ty e) then
      { w with event := none }
    else w
  | none => w

/-- The per-worker effect of `event_queue_cleanup` on back-pointers. -/
def cleanup_worker (st : Broker) (ty : Option EventState) (w : Worker) : Worker :=
  cleanup_worker_go st ty w w.event

/-- `event_queue_cleanup` (udevd.c lines 606-617): free every event matching
the state filter (removing it from the list and niling the attached workers'
back-pointers). -/
def event_queue_cleanup (st : Broker) (ty : Option EventState) : Broker :=
  { events := st.events.filter (fun e => !event_matches ty e),
    workers := st.workers.map (cleanup_worker st ty) }

/-- `worker_attach_event`'s effect on the event side (udevd.c lines
201-213). -/
def attach_event (e : Event) (p t : Nat) : Event :=
  { e with state := .running, worker := some p, start_usec := t, warned := false }

/-- The idle-worker scan of `event_run` (udevd.c lines 449-465), iterating
the worker map: skip non-idle workers; on unicast send failure kill the
worker (state `killed`) and continue; on success attach (worker side of
`worker_attach_event`) and stop, reporting the accepting pid. -/
def event_run_scan (sendOk : Nat → Bool) (s : Nat) :
    List Worker → List Worker × Option Nat
  | [] => ([], none)
  | w :: ws =>
    if w.state == WorkerState.idle then
      if sendOk w.pid then
        ({ w with state := .running, event := some s } :: ws, some w.pid)
      else
        let r := event_run_scan sendOk s ws
        ({ w with state := .killed } :: r.1, r.2)
    else
      let r := event_run_scan sendOk s ws
      (w :: r.1, r.2)

/-- Attach at the event with seqnum `s` (identity elsewhere). -/
def attach_event_at (s p t : Nat) (e : Event) : Event :=
  if e.seqnum == s then attach_event e p t else e

/-- The `event->state = EVENT_QUEUED` write of the fork-failure path. -/
def requeue_event_at (s : Nat) (e : Event) : Event :=
  if e.seqnum == s then { e with state := .queued } else e

/-- `worker_spawn` (udevd.c lines 215-443) as seen by the broker: `forkRes`
is the pid returned by fork (`none` = fork failed).  On failure the event is
(re)marked `queued` and nothing else changes; on success a new worker is
created and `worker_attach_event` runs. -/
def worker_spawn (st : Broker) (s : Nat) (forkRes : Option Nat) (t : Nat) : Broker :=
  match forkRes with
  | none =>
    { st with events := st.events.map (requeue_event_at s) }
  | some p =>
    { events := st.events.map (attach_event_at s p t),
      workers := st.workers ++ [{ pid := p, state := .running, event := some s }] }

/-- The tail of `event_run` after the idle scan, on the scan's updated
worker map `ws1` and accepting pid. -/
def event_run_att (st : Broker) (s : Nat) (forkRes : Option Nat) (t cm : Nat)
    (ws1 : List Worker) : Option Nat → Broker
  | some p =>
    { events := st.events.map (attach_event_at s p t),
      workers := ws1 }
  | none =>
    if cm ≤ ws1.length then { st with workers := ws1 }
    else worker_spawn { st with workers := ws1 } s forkRes t

/-- `event_run` (udevd.c lines 445-475): try the idle workers; if one
accepted the event, attach it; otherwise spawn a new worker unless the pool
is at `children_max` (the scan does not add or remove workers, so the map
size equals the pre-scan size). -/
def event_run (st : Broker) (s : Nat) (sendOk : Nat → Bool)
    (forkRes : Option Nat) (t cm : Nat) : Broker :=
  event_run_att st s forkRes t cm (event_run_scan sendOk s st.workers).1
    (event_run_scan sendOk s st.workers).2

/-- Log lines emitted by `on_worker`. -/
inductive LogMsg where
  | warnInvalidSize
  | warnNoPid
  | debugUntracked
deriving DecidableEq, Repr

/-- `sizeof(struct worker_message)`: the completion message struct is
empty. -/
def worker_message_size : Nat := 0

/-- `worker->state = WORKER_IDLE` applied at pid `p`. -/
def idle_worker (p : Nat) (x : Worker) : Worker :=
  if x.pid == p then { x with state := .idle } else x

/-- The completion handling for the looked-up worker: mark idle unless
killed, then free the attached event. -/
def on_worker_found (st : Broker) (p : Nat) : Option Worker → Broker × List LogMsg
  | none => (st, [.debugUntracked])
  | some w =>
    (event_free_opt
      (if w.state = .killed then st
       else { st with workers := st.workers.map (idle_worker p) })
      w.event, [])

/-- `on_worker` (udevd.c lines 619-679) handling one completion datagram of
size `sz` with sender credential `ucred`: drop bad messages with a warning
(or a debug line for untracked pids); otherwise mark the worker idle unless
killed, and free its attached event. -/
def on_worker_msg (st : Broker) (sz : Nat) (ucred : Option Nat) :
    Broker × List LogMsg :=
  if sz ≠ worker_message_size then (st, [.warnInvalidSize])
  else
    match ucred with
    | none => (st, [.warnNoPid])
    | some p =>
      if p = 0 then (st, [.warnNoPid])
      else on_worker_found st p (st.workers.find? (fun w => w.pid == p))

/-- Exit status reported by `waitpid`. -/
inductive ExitStatus where
  | exited (code : Nat)
  | signaled (sig : Nat)
  | stopped
  | continued
deriving DecidableEq, Repr

/-- `!WIFEXITED(status) || WEXITSTATUS(status) != 0`. -/
def ExitStatus.abnormal : ExitStatus → Bool
  | .exited c => c != 0
  | .signaled _ => true
  | .stopped => false
  | .continued => false

/-- Side effects of the child-exit handler on external collaborators:
deleting the device's database record, untagging its indices, re-forwarding
the original kernel event. -/
inductive Action where
  | dbDelete (dev : Nat)
  | untagIndex (dev : Nat)
  | forwardKernel (dev : Nat)
deriving DecidableEq, Repr

/-- The failure side effects on the looked-up event. -/
def failed_event_actions_go : Option Event → List Action
  | some e => [.dbDelete e.dev, .untagIndex e.dev, .forwardKernel e.dev_kernel]
  | none => []

/-- The failure side effects for a dead worker's held event: delete the
device's db record, untag its indices, forward the unamended kernel
device. -/
def failed_event_actions (st : Broker) : Option Nat → List Action
  | none => []
  | some s => failed_event_actions_go (st.events.find? (fun e => e.seqnum == s))

/-- `on_sigchld` (udevd.c lines 941-988) for one reaped pid: unknown pids
are ignored; stopped/continued children return without freeing; an
abnormally exited worker holding an event triggers db-delete, untag and
re-forward of the unamended kernel device; in all exit cases the worker is
freed. -/
def on_child_exit_found (st : Broker) (p : Nat) (status : ExitStatus) :
    Option Worker → Broker × List Action
  | none => (st, [])
  | some w =>
    match status with
    | .stopped => (st, [])
    | .continued => (st, [])
    | _ =>
      (worker_free st p,
       if status.abnormal then failed_event_actions st w.event else [])

/-- `on_sigchld` dispatch on the looked-up worker. -/
def on_child_exit (st : Broker) (p : Nat) (status : ExitStatus) :
    Broker × List Action :=
  on_child_exit_found st p status (st.workers.find? (fun w => w.pid == p))

/-- One broker operation of the reactor: uevent insert, dispatch pass for
one event, worker completion message, child reap, queue cleanup, kill-all
(reload/shutdown). -/
inductive Op where
  | insert (d : Device)
  | run (s : Nat) (sendOk : Nat → Bool) (forkRes : Option Nat) (t cm : Nat)
  | complete (sz : Nat) (ucred : Option Nat)
  | childExit (p : Nat) (status : ExitStatus)
  | cleanup (ty : Option EventState)
  | killAll

/-- Apply one operation.  The `insert` guard models the kernel guarantee
that seqnums are unique; the `run` guard models its call site
(`event_queue_start` dispatches only `queued` events, `worker_attach_event`
asserts the event is unattached) and the OS guarantee that fork returns a
fresh nonzero pid. -/
def applyOp (st : Broker) : Op → Broker
  | .insert d =>
    if st.events.any (fun e => e.seqnum == d.seqnum) then st
    else event_queue_insert st d
  | .run s sendOk forkRes t cm =>
    if st.events.any (fun e => e.seqnum == s && e.state == EventState.queued &&
         e.worker == none) &&
       (match forkRes with
        | some p => !(st.workers.any (fun w => w.pid == p)) && p != 0
        | none => true) then
      event_run st s sendOk forkRes t cm
    else st
  | .complete sz ucred => (on_worker_msg st sz ucred).1
  | .childExit p status => (on_child_exit st p status).1
  | .cleanup ty => event_queue_cleanup st ty
  | .killAll => worker_kill st

/-- The broker starts with an empty queue and an empty worker map. -/
def Broker.init : Broker := ⟨[], []⟩

/-- The broker state after a sequence of operations from startup. -/
def runOps (ops : List Op) : Broker := ops.foldl applyOp Broker.init

/-! ## The worker/event cross-link invariant -/

/-- Broker well-formedness: seqnums and pids are unique keys, the
worker→event and event→worker back-pointers are mutual, and idle workers
hold no event. -/
structure WInv (st : Broker) : Prop where
  seq_nodup : (st.events.map Event.seqnum).Nodup
  pid_nodup : (st.workers.map Worker.pid).Nodup
  link_we : ∀ w ∈ st.workers, ∀ s, w.event = some s →
    ∃ e ∈ st.events, e.seqnum = s ∧ e.worker = some w.pid
  link_ew : ∀ e ∈ st.events, ∀ p, e.worker = some p →
    ∃ w ∈ st.workers, w.pid = p ∧ w.event = some e.seqnum
  idle_no_event : ∀ w ∈ st.workers, w.state = .idle → w.event = none

theorem map_eq_self_of {α : Type} (l : List α) (f : α → α)
    (h : ∀ x ∈ l, f x = x) : l.map f = l := by
  induction l with
  | nil => rfl
  | cons a l ih =>
    rw [List.map_cons, h a (List.mem_cons_self a l),
      ih (fun x hx => h x (List.mem_cons_of_mem a hx))]

/-- How one worker of the pre-scan map relates to the corresponding worker
after the idle scan of `event_run`: unchanged, killed (idle worker whose
send failed), or attached (the idle worker that accepted the event). -/
def ScanRel (s : Nat) (att : Option Nat) (w w' : Worker) : Prop :=
  w' = w ∨
  (w.state = .idle ∧ w' = { w with state := .killed }) ∨
  (w.state = .idle ∧ att = some w.pid ∧
    w' = { w with state := .running, event := some s })

theorem event_run_scan_pids (sendOk : Nat → Bool) (s : Nat) (ws : List Worker) :
    ((event_run_scan sendOk s ws).1).map Worker.pid = ws.map Worker.pid := by
  induction ws with
  | nil => rfl
  | cons w ws ih =>
    rw [event_run_scan]
    split_ifs <;> simp_all

theorem event_run_scan_rev (sendOk : Nat → Bool) (s : Nat) (ws : List Worker) :
    ∀ w' ∈ (event_run_scan sendOk s ws).1,
      ∃ w ∈ ws, ScanRel s (event_run_scan sendOk s ws).2 w w' := by
  induction ws with
  | nil => intro w' h; rw [event_run_scan] at h; cases h
  | cons w ws ih =>
    intro w' h
    rw [event_run_scan] at h ⊢
    split_ifs at h ⊢ with hidle hsend
    · rcases List.mem_cons.mp h with rfl | hmem
      · exact ⟨w, List.mem_cons_self w ws,
          Or.inr (Or.inr ⟨by simpa using hidle, rfl, rfl⟩)⟩
      · exact ⟨w', List.mem_cons_of_mem w hmem, Or.inl rfl⟩
    · rcases List.mem_cons.mp h with rfl | hmem
      · exact ⟨w, List.mem_cons_self w ws,
          Or.inr (Or.inl ⟨by simpa using hidle, rfl⟩)⟩
      · obtain ⟨w0, hw0, hrel⟩ := ih w' hmem
        exact ⟨w0, List.mem_cons_of_mem w hw0, hrel⟩
    · rcases List.mem_cons.mp h with rfl | hmem
      · exact ⟨w', List.mem_cons_self _ ws, Or.inl rfl⟩
      · obtain ⟨w0, hw0, hrel⟩ := ih w' hmem
        exact ⟨w0, List.mem_cons_of_mem w hw0, hrel⟩

theorem event_run_scan_fwd (sendOk : Nat → Bool) (s : Nat) (ws : List Worker) :
    ∀ w ∈ ws, ∃ w' ∈ (event_run_scan sendOk s ws).1,
      ScanRel s (event_run_scan sendOk s ws).2 w w' := by
  induction ws with
  | nil => intro w h; cases h
  | cons w0 ws ih =>
    intro w h
    rw [event_run_scan]
    split_ifs with hidle hsend
    · rcases List.mem_cons.mp h with rfl | hmem
      · exact ⟨{ w with state := .running, event := some s },
          List.mem_cons_self _ _,
          Or.inr (Or.inr ⟨by simpa using hidle, rfl, rfl⟩)⟩
      · exact ⟨w, List.mem_cons_of_mem _ hmem, Or.inl rfl⟩
    · rcases List.mem_cons.mp h with rfl | hmem
      · exact ⟨{ w with state := .killed }, List.mem_cons_self _ _,
          Or.inr (Or.inl ⟨by simpa using hidle, rfl⟩)⟩
      · obtain ⟨w', hw', hrel⟩ := ih w hmem
        exact ⟨w', List.mem_cons_of_mem _ hw', hrel⟩
    · rcases List.mem_cons.mp h with rfl | hmem
      · exact ⟨w, List.mem_cons_self _ _, Or.inl rfl⟩
      · obtain ⟨w', hw', hrel⟩ := ih w hmem
        exact ⟨w', List.mem_cons_of_mem _ hw', hrel⟩

theorem event_run_scan_att (sendOk : Nat → Bool) (s : Nat) (ws : List Worker)
    (p : Nat) (h : (event_run_scan sendOk s ws).2 = some p) :
    ∃ w' ∈ (event_run_scan sendOk s ws).1,
      w'.pid = p ∧ w'.state = .running ∧ w'.event = some s := by
  induction ws with
  | nil => rw [event_run_scan] at h; cases h
  | cons w ws ih =>
    rw [event_run_scan] at h ⊢
    split_ifs at h ⊢ with hidle hsend
    · obtain rfl : w.pid = p := by simpa using h
      exact ⟨{ w with state := .running, event := some s },
        List.mem_cons_self _ _, rfl, rfl, rfl⟩
    · obtain ⟨w', hw', hp⟩ := ih h
      exact ⟨w', List.mem_cons_of_mem _ hw', hp⟩
    · obtain ⟨w', hw', hp⟩ := ih h
      exact ⟨w', List.mem_cons_of_mem _ hw', hp⟩

theorem find?_unique {α : Type} {l : List α} {p : α → Bool} {a : α}
    (ha : a ∈ l) (hpa : p a = true)
    (huniq : ∀ x ∈ l, p x = true → x = a) : l.find? p = some a := by
  induction l with
  | nil => cases ha
  | cons b l ih =>
    by_cases hb : p b = true
    · rw [List.find?_cons_of_pos _ hb, huniq b (List.mem_cons_self b l) hb]
    · rw [List.find?_cons_of_neg _ hb]
      rcases List.mem_cons.mp ha with rfl | hmem
      · exact absurd hpa hb
      · exact ih hmem (fun x hx hpx => huniq x (List.mem_cons_of_mem b hx) hpx)

theorem WInv.event_eq {st : Broker} (h : WInv st) {e1 e2 : Event}
    (h1 : e1 ∈ st.events) (h2 : e2 ∈ st.events)
    (hseq : e1.seqnum = e2.seqnum) : e1 = e2 :=
  List.inj_on_of_nodup_map h.seq_nodup h1 h2 hseq

theorem WInv.worker_eq {st : Broker} (h : WInv st) {w1 w2 : Worker}
    (h1 : w1 ∈ st.workers) (h2 : w2 ∈ st.workers)
    (hpid : w1.pid = w2.pid) : w1 = w2 :=
  List.inj_on_of_nodup_map h.pid_nodup h1 h2 hpid

theorem winv_init : WInv Broker.init := by
  constructor <;> simp [Broker.init]

theorem winv_insert (st : Broker) (d : Device) (h : WInv st)
    (hfresh : ∀ e ∈ st.events, e.seqnum ≠ d.seqnum) :
    WInv (event_queue_insert st d) := by
  constructor
  · simp only [event_queue_insert, List.map_append, List.map_cons, List.map_nil]
    rw [List.nodup_append]
    refine ⟨h.seq_nodup, List.nodup_singleton _, ?_⟩
    intro x hx
    simp only [List.mem_singleton]
    obtain ⟨e, he, rfl⟩ := List.mem_map.mp hx
    intro hcontra
    exact hfresh e he (by simpa using hcontra)
  · exact h.pid_nodup
  · intro w hw s hs
    obtain ⟨e, he, hseq, hworker⟩ := h.link_we w hw s hs
    exact ⟨e, by simp [event_queue_insert, List.mem_append, he], hseq, hworker⟩
  · intro e he p hp
    simp only [event_queue_insert, List.mem_append, List.mem_singleton] at he
    rcases he with he | rfl
    · exact h.link_ew e he p hp
    · cases hp
  · exact h.idle_no_event

theorem kill_worker_pid (w : Worker) : (kill_worker w).pid = w.pid := by
  unfold kill_worker; split <;> rfl

theorem kill_worker_event (w : Worker) : (kill_worker w).event = w.event := by
  unfold kill_worker; split <;> rfl

theorem map_key_eq {α β : Type} (l : List α) (f : α → α) (key : α → β)
    (h : ∀ x, key (f x) = key x) : (l.map f).map key = l.map key := by
  induction l with
  | nil => rfl
  | cons a l ih => simp only [List.map_cons, h, ih]

theorem winv_worker_kill (st : Broker) (h : WInv st) : WInv (worker_kill st) := by
  constructor
  · exact h.seq_nodup
  · rw [worker_kill, map_key_eq st.workers kill_worker Worker.pid kill_worker_pid]
    exact h.pid_nodup
  · intro w' hw' s hs
    obtain ⟨w, hw, rfl⟩ := List.mem_map.mp hw'
    obtain ⟨e, he, hseq, hworker⟩ := h.link_we w hw s ((kill_worker_event w) ▸ hs)
    refine ⟨e, he, hseq, ?_⟩
    rw [kill_worker_pid w]
    exact hworker
  · intro e he p hp
    obtain ⟨w, hw, hwpid, hwev⟩ := h.link_ew e he p hp
    refine ⟨kill_worker w, List.mem_map_of_mem _ hw, ?_, ?_⟩
    · rw [kill_worker_pid w]; exact hwpid
    · rw [kill_worker_event w]; exact hwev
  · intro w' hw' hidle
    obtain ⟨w, hw, rfl⟩ := List.mem_map.mp hw'
    unfold kill_worker at hidle ⊢
    split at hidle
    · rw [if_pos (by assumption)]
      exact h.idle_no_event w hw hidle
    · simp at hidle

theorem cleanup_worker_pid (st : Broker) (ty : Option EventState) (w : Worker) :
    (cleanup_worker st ty w).pid = w.pid := by
  unfold cleanup_worker cleanup_worker_go
  split
  · split <;> rfl
  · rfl

theorem cleanup_worker_state (st : Broker) (ty : Option EventState) (w : Worker) :
    (cleanup_worker st ty w).state = w.state := by
  unfold cleanup_worker cleanup_worker_go
  split
  · split <;> rfl
  · rfl

/-- If a worker still carries an event pointer after the cleanup pass, it
carried it before and the pointed-to event was not freed. -/
theorem cleanup_worker_event_some (st : Broker) (ty : Option EventState)
    (w : Worker) (s : Nat) (h : (cleanup_worker st ty w).event = some s) :
    w.event = some s ∧
    (st.events.any (fun e => e.seqnum == s && event_matches ty e)) = false := by
  unfold cleanup_worker cleanup_worker_go at h
  split at h
  · next s0 heq =>
    split at h
    · cases h
    · next hnotany =>
      rw [heq] at h
      cases h
      exact ⟨heq, by simpa using hnotany⟩
  · next heq =>
    rw [heq] at h
    cases h

theorem winv_cleanup (st : Broker) (ty : Option EventState) (h : WInv st) :
    WInv (event_queue_cleanup st ty) := by
  constructor
  · exact List.Nodup.sublist (List.Sublist.map _ (List.filter_sublist _)) h.seq_nodup
  · rw [event_queue_cleanup,
      map_key_eq st.workers (cleanup_worker st ty) Worker.pid (cleanup_worker_pid st ty)]
    exact h.pid_nodup
  · intro w' hw' s hs
    obtain ⟨w, hw, rfl⟩ := List.mem_map.mp hw'
    obtain ⟨hev, hnotany⟩ := cleanup_worker_event_some st ty w s hs
    obtain ⟨e, he, hseq, hworker⟩ := h.link_we w hw s hev
    refine ⟨e, ?_, hseq, ?_⟩
    · rw [event_queue_cleanup]
      refine List.mem_filter.mpr ⟨he, ?_⟩
      have : event_matches ty e = false := by
        by_contra hcontra
        rw [Bool.not_eq_false] at hcontra
        have : st.events.any (fun x => x.seqnum == s && event_matches ty x) = true :=
          List.any_eq_true.mpr ⟨e, he, by rw [hseq]; simp [hcontra]⟩
        rw [this] at hnotany; cases hnotany
      simp [this]
    · rw [cleanup_worker_pid st ty w]
      exact hworker
  · intro e' he' p hp
    have hmem : e' ∈ st.events := List.mem_of_mem_filter he'
    have hkeep : event_matches ty e' = false := by
      have := List.of_mem_filter he'
      simpa using this
    obtain ⟨w, hw, hwpid, hwev⟩ := h.link_ew e' hmem p hp
    refine ⟨cleanup_worker st ty w, List.mem_map_of_mem _ hw, ?_, ?_⟩
    · rw [cleanup_worker_pid st ty w]; exact hwpid
    · unfold cleanup_worker cleanup_worker_go
      split
      · next s0 heq =>
        rw [hwev] at heq
        cases heq
        split
        · next hany =>
          obtain ⟨e1, he1, hprop⟩ := List.any_eq_true.mp hany
          have he1seq : e1.seqnum = e'.seqnum := by
            have := (Bool.and_eq_true _ _).mp hprop
            simpa using this.1
          have he1e : e1 = e' := h.event_eq he1 hmem he1seq
          subst he1e
          have := (Bool.and_eq_true _ _).mp hprop
          rw [hkeep] at this
          cases this.2
        · exact hwev
      · next heq =>
        rw [hwev] at heq
        cases heq
  · intro w' hw' hidle
    obtain ⟨w, hw, rfl⟩ := List.mem_map.mp hw'
    rw [cleanup_worker_state st ty w] at hidle
    have hnone := h.idle_no_event w hw hidle
    unfold cleanup_worker cleanup_worker_go
    split
    · next s0 heq =>
      rw [hnone] at heq
      cases heq
    · exact hnone

theorem nil_worker_pid (p : Nat) (x : Worker) : (nil_worker p x).pid = x.pid := by
  unfold nil_worker; split <;> rfl

theorem nil_worker_state (p : Nat) (x : Worker) :
    (nil_worker p x).state = x.state := by
  unfold nil_worker; split <;> rfl

theorem idle_worker_pid (p : Nat) (x : Worker) : (idle_worker p x).pid = x.pid := by
  unfold idle_worker; split <;> rfl

theorem idle_worker_event (p : Nat) (x : Worker) :
    (idle_worker p x).event = x.event := by
  unfold idle_worker; split <;> rfl

theorem mem_filter_of_ne {l : List Event} {e : Event} (s : Nat)
    (he : e ∈ l) (hne : e.seqnum ≠ s) :
    e ∈ l.filter (fun x => x.seqnum != s) :=
  List.mem_filter.mpr ⟨he, by simpa using hne⟩

theorem ne_of_mem_filter {l : List Event} {e : Event} {s : Nat}
    (he : e ∈ l.filter (fun x => x.seqnum != s)) : e.seqnum ≠ s := by
  have := List.of_mem_filter he
  simpa using this

/-- Marking one worker idle preserves the invariant when every worker with
that pid holds no event. -/
theorem winv_idle_map (st : Broker) (p : Nat) (h : WInv st)
    (hnoev : ∀ x ∈ st.workers, x.pid = p → x.event = none) :
    WInv { st with workers := st.workers.map (idle_worker p) } := by
  constructor
  · exact h.seq_nodup
  · rw [map_key_eq st.workers (idle_worker p) Worker.pid (idle_worker_pid p)]
    exact h.pid_nodup
  · intro x' hx' s hs
    obtain ⟨x, hx, rfl⟩ := List.mem_map.mp hx'
    obtain ⟨e, he, hseq, hworker⟩ := h.link_we x hx s ((idle_worker_event p x) ▸ hs)
    refine ⟨e, he, hseq, ?_⟩
    rw [idle_worker_pid p x]
    exact hworker
  · intro e he q hq
    obtain ⟨w0, hw0, hw0pid, hw0ev⟩ := h.link_ew e he q hq
    refine ⟨idle_worker p w0, List.mem_map_of_mem _ hw0, ?_, ?_⟩
    · rw [idle_worker_pid p w0]; exact hw0pid
    · rw [idle_worker_event p w0]; exact hw0ev
  · intro x' hx' hidle
    obtain ⟨x, hx, rfl⟩ := List.mem_map.mp hx'
    rw [idle_worker_event p x]
    unfold idle_worker at hidle
    split at hidle
    · exact hnoev x hx (by simpa using ‹(x.pid == p) = true›)
    · exact h.idle_no_event x hx hidle

/-- `event_free` preserves the invariant. -/
theorem winv_event_free (st : Broker) (s : Nat) (h : WInv st) :
    WInv (event_free st s) := by
  unfold event_free
  rcases hfind : st.events.find? (fun e => e.seqnum == s) with _ | e
  · rw [hfind]; exact h
  · rw [hfind]
    have hemem : e ∈ st.events := List.mem_of_find?_eq_some hfind
    have heseq : e.seqnum = s := by simpa using List.find?_some hfind
    simp only [event_free_go]
    rcases hew : e.worker with _ | p
    · simp only [nil_worker_opt]
      constructor
      · exact List.Nodup.sublist (List.Sublist.map _ (List.filter_sublist _)) h.seq_nodup
      · exact h.pid_nodup
      · intro x hx s'' hs''
        obtain ⟨e0, he0, hseq0, hworker0⟩ := h.link_we x hx s'' hs''
        refine ⟨e0, mem_filter_of_ne s he0 ?_, hseq0, hworker0⟩
        intro hcontra
        have : e0 = e := h.event_eq he0 hemem (by omega)
        rw [this, hew] at hworker0
        cases hworker0
      · intro e'' he'' q hq
        exact h.link_ew e'' (List.mem_of_mem_filter he'') q hq
      · exact h.idle_no_event
    · simp only [nil_worker_opt]
      constructor
      · exact List.Nodup.sublist (List.Sublist.map _ (List.filter_sublist _)) h.seq_nodup
      · rw [map_key_eq st.workers (nil_worker p) Worker.pid (nil_worker_pid p)]
        exact h.pid_nodup
      · intro x' hx' s'' hs''
        obtain ⟨x, hx, rfl⟩ := List.mem_map.mp hx'
        have hxpid : ¬ (x.pid == p) = true := by
          intro hcontra
          unfold nil_worker at hs''
          rw [if_pos hcontra] at hs''
          cases hs''
        have hxev : x.event = some s'' := by
          unfold nil_worker at hs''
          rw [if_neg hxpid] at hs''
          exact hs''
        obtain ⟨e0, he0, hseq0, hworker0⟩ := h.link_we x hx s'' hxev
        have hne : e0.seqnum ≠ s := by
          intro hcontra
          have : e0 = e := h.event_eq he0 hemem (by omega)
          rw [this, hew] at hworker0
          have : x.pid = p := by
            injection hworker0 with hpp
            exact hpp.symm
          exact hxpid (by simpa using this)
        refine ⟨e0, mem_filter_of_ne s he0 hne, hseq0, ?_⟩
        rw [nil_worker_pid p x]
        exact hworker0
      · intro e'' he'' q hq
        have hmem'' : e'' ∈ st.events := List.mem_of_mem_filter he''
        have hne'' : e''.seqnum ≠ s := ne_of_mem_filter he''
        obtain ⟨w0, hw0, hw0pid, hw0ev⟩ := h.link_ew e'' hmem'' q hq
        have hqp : w0.pid ≠ p := by
          intro hcontra
          obtain ⟨wp, hwp, hwppid, hwpev⟩ := h.link_ew e hemem p hew
          have : w0 = wp := h.worker_eq hw0 hwp (by rw [hcontra, hwppid])
          rw [this, hwpev] at hw0ev
          injection hw0ev with hseqq
          exact hne'' (by rw [← hseqq, heseq])
        refine ⟨nil_worker p w0, List.mem_map_of_mem _ hw0, ?_, ?_⟩
        · rw [nil_worker_pid p w0]; exact hw0pid
        · unfold nil_worker
          rw [if_neg (by simpa using hqp)]
          exact hw0ev
      · intro x' hx' hidle
        obtain ⟨x, hx, rfl⟩ := List.mem_map.mp hx'
        rw [nil_worker_state p x] at hidle
        unfold nil_worker
        split
        · rfl
        · exact h.idle_no_event x hx hidle

/-- `event_free` through a possibly-NULL pointer preserves the invariant. -/
theorem winv_event_free_opt (st : Broker) (oev : Option Nat) (h : WInv st) :
    WInv (event_free_opt st oev) := by
  rcases oev with _ | s
  · exact h
  · exact winv_event_free st s h

theorem find?_event_of_mem (st : Broker) (h : WInv st) (e : Event) (s : Nat)
    (he : e ∈ st.events) (hseq : e.seqnum = s) :
    st.events.find? (fun x => x.seqnum == s) = some e :=
  find?_unique he (by simpa using hseq)
    (fun x hx hpx => h.event_eq hx he (by simp at hpx; omega))

theorem nil_idle_comm (p : Nat) (x : Worker) :
    nil_worker p (idle_worker p x) = idle_worker p (nil_worker p x) := by
  unfold nil_worker idle_worker
  by_cases hx : (x.pid == p) = true
  · simp [hx]
  · simp [hx]

/-- `on_worker` preserves the invariant. -/
theorem winv_on_worker (st : Broker) (sz : Nat) (ucred : Option Nat)
    (h : WInv st) : WInv (on_worker_msg st sz ucred).1 := by
  unfold on_worker_msg
  split
  · exact h
  · split
    · exact h
    · next p =>
      split
      · exact h
      · rcases hfind : st.workers.find? (fun w => w.pid == p) with _ | w
        · rw [hfind]; exact h
        · rw [hfind]
          simp only [on_worker_found]
          have hwmem : w ∈ st.workers := List.mem_of_find?_eq_some hfind
          have hwpid : w.pid = p := by simpa using List.find?_some hfind
          by_cases hks : w.state = .killed
          · rw [if_pos hks]
            exact winv_event_free_opt st w.event h
          · rw [if_neg hks]
            rcases hwe : w.event with _ | s
            · simp only [event_free_opt]
              refine winv_idle_map st p h ?_
              intro x hx hxp
              have : x = w := h.worker_eq hx hwmem (by rw [hxp, hwpid])
              rw [this, hwe]
            · simp only [event_free_opt]
              obtain ⟨es, hesmem, hesseq, hesworker⟩ := h.link_we w hwmem s hwe
              rw [hwpid] at hesworker
              have hfinde : st.events.find? (fun x => x.seqnum == s) = some es :=
                find?_event_of_mem st h es s hesmem hesseq
              have hkey : event_free
                  { st with workers := st.workers.map (idle_worker p) } s =
                  { event_free st s with
                    workers := (event_free st s).workers.map (idle_worker p) } := by
                unfold event_free
                rw [show ({ st with workers := st.workers.map (idle_worker p) } :
                      Broker).events = st.events from rfl]
                rw [hfinde]
                simp only [event_free_go, hesworker, nil_worker_opt]
                congr 1
                rw [List.map_map, List.map_map]
                exact congrArg (fun f => List.map f st.workers)
                  (funext fun x => nil_idle_comm p x)
              rw [hkey]
              refine winv_idle_map (event_free st s) p (winv_event_free st s h) ?_
              intro x hx hxp
              unfold event_free at hx
              rw [hfinde] at hx
              simp only [event_free_go, hesworker, nil_worker_opt] at hx
              obtain ⟨x0, _hx0, rfl⟩ := List.mem_map.mp hx
              rw [nil_worker_pid p x0] at hxp
              unfold nil_worker
              rw [if_pos (by simpa using hxp)]

theorem mem_wfilter_of_ne {l : List Worker} {x : Worker} {p : Nat}
    (hx : x ∈ l) (hne : x.pid ≠ p) : x ∈ l.filter (fun y => y.pid != p) :=
  List.mem_filter.mpr ⟨hx, by simpa using hne⟩

theorem pid_ne_of_mem_wfilter {l : List Worker} {x : Worker} {p : Nat}
    (hx : x ∈ l.filter (fun y => y.pid != p)) : x.pid ≠ p := by
  have := List.of_mem_filter hx
  simpa using this

/-- `worker_free` preserves the invariant. -/
theorem winv_worker_free (st : Broker) (p : Nat) (h : WInv st) :
    WInv (worker_free st p) := by
  unfold worker_free
  rcases hfind : st.workers.find? (fun w => w.pid == p) with _ | w
  · rw [hfind]; exact h
  · rw [hfind]
    simp only [worker_free_go]
    have hwmem : w ∈ st.workers := List.mem_of_find?_eq_some hfind
    have hwpid : w.pid = p := by simpa using List.find?_some hfind
    rcases hwe : w.event with _ | s
    · simp only [event_free_opt]
      constructor
      · exact h.seq_nodup
      · exact List.Nodup.sublist (List.Sublist.map _ (List.filter_sublist _))
          h.pid_nodup
      · intro x hx s'' hs''
        exact h.link_we x (List.mem_of_mem_filter hx) s'' hs''
      · intro e he q hq
        obtain ⟨w0, hw0, hw0pid, hw0ev⟩ := h.link_ew e he q hq
        have hqp : w0.pid ≠ p := by
          intro hcontra
          have : w0 = w := h.worker_eq hw0 hwmem (by rw [hcontra, hwpid])
          rw [this, hwe] at hw0ev
          cases hw0ev
        exact ⟨w0, mem_wfilter_of_ne hw0 hqp, hw0pid, hw0ev⟩
      · intro x hx hidle
        exact h.idle_no_event x (List.mem_of_mem_filter hx) hidle
    · simp only [event_free_opt]
      obtain ⟨es, hesmem, hesseq, hesworker⟩ := h.link_we w hwmem s hwe
      rw [hwpid] at hesworker
      have hfinde : st.events.find? (fun x => x.seqnum == s) = some es :=
        find?_event_of_mem st h es s hesmem hesseq
      unfold event_free
      rw [show ({ st with workers := st.workers.filter (fun x => x.pid != p) } :
            Broker).events = st.events from rfl]
      rw [hfinde]
      simp only [event_free_go, hesworker, nil_worker_opt]
      rw [map_eq_self_of (st.workers.filter (fun x => x.pid != p)) (nil_worker p)
        (by
          intro x hx
          unfold nil_worker
          rw [if_neg (by simpa using pid_ne_of_mem_wfilter hx)])]
      constructor
      · exact List.Nodup.sublist (List.Sublist.map _ (List.filter_sublist _))
          h.seq_nodup
      · exact List.Nodup.sublist (List.Sublist.map _ (List.filter_sublist _))
          h.pid_nodup
      · intro x hx s'' hs''
        have hxmem : x ∈ st.workers := List.mem_of_mem_filter hx
        have hxp : x.pid ≠ p := pid_ne_of_mem_wfilter hx
        obtain ⟨e0, he0, hseq0, hworker0⟩ := h.link_we x hxmem s'' hs''
        have hne : e0.seqnum ≠ s := by
          intro hcontra
          have : e0 = es := h.event_eq he0 hesmem (by omega)
          rw [this, hesworker] at hworker0
          injection hworker0 with hpp
          exact hxp hpp.symm
        exact ⟨e0, mem_filter_of_ne s he0 hne, hseq0, hworker0⟩
      · intro e he q hq
        have hemem : e ∈ st.events := List.mem_of_mem_filter he
        have hnes : e.seqnum ≠ s := ne_of_mem_filter he
        obtain ⟨w0, hw0, hw0pid, hw0ev⟩ := h.link_ew e hemem q hq
        have hqp : w0.pid ≠ p := by
          intro hcontra
          have : w0 = w := h.worker_eq hw0 hwmem (by rw [hcontra, hwpid])
          rw [this, hwe] at hw0ev
          injection hw0ev with hss
          exact hnes hss.symm
        exact ⟨w0, mem_wfilter_of_ne hw0 hqp, hw0pid, hw0ev⟩
      · intro x hx hidle
        exact h.idle_no_event x (List.mem_of_mem_filter hx) hidle

/-- `on_sigchld` (one reaped pid) preserves the invariant. -/
theorem winv_on_child_exit (st : Broker) (p : Nat) (status : ExitStatus)
    (h : WInv st) : WInv (on_child_exit st p status).1 := by
  unfold on_child_exit
  rcases hfind : st.workers.find? (fun w => w.pid == p) with _ | w
  · rw [hfind]; exact h
  · rw [hfind]
    cases status <;> simp only [on_child_exit_found] <;>
      first
        | exact h
        | exact winv_worker_free st p h

theorem attach_event_at_seqnum (s p t : Nat) (e : Event) :
    (attach_event_at s p t e).seqnum = e.seqnum := by
  unfold attach_event_at attach_event; split <;> rfl

theorem attach_event_at_of_ne (s p t : Nat) (e : Event) (h : e.seqnum ≠ s) :
    attach_event_at s p t e = e := by
  unfold attach_event_at
  rw [if_neg (by simpa using h)]

theorem attach_event_at_of_eq (s p t : Nat) (e : Event) (h : e.seqnum = s) :
    attach_event_at s p t e = attach_event e p t := by
  unfold attach_event_at
  rw [if_pos (by simpa using h)]

theorem requeue_event_at_seqnum (s : Nat) (e : Event) :
    (requeue_event_at s e).seqnum = e.seqnum := by
  unfold requeue_event_at; split <;> rfl

theorem requeue_event_at_worker (s : Nat) (e : Event) :
    (requeue_event_at s e).worker = e.worker := by
  unfold requeue_event_at; split <;> rfl

theorem ScanRel.pid_eq {s : Nat} {att : Option Nat} {w w' : Worker}
    (h : ScanRel s att w w') : w'.pid = w.pid := by
  rcases h with rfl | ⟨_, rfl⟩ | ⟨_, _, rfl⟩ <;> rfl

/-- With no accepting worker, the scan only kills idle workers: pids and
events are untouched. -/
theorem ScanRel.of_none {s : Nat} {w w' : Worker}
    (h : ScanRel s none w w') : w'.pid = w.pid ∧ w'.event = w.event ∧
      (w' = w ∨ w'.state = .killed) := by
  rcases h with rfl | ⟨_, rfl⟩ | ⟨_, hc, _⟩
  · exact ⟨rfl, rfl, Or.inl rfl⟩
  · exact ⟨rfl, rfl, Or.inr rfl⟩
  · cases hc

/-- `event_run` preserves the invariant, given its call-site guard: the
dispatched event is queued and unattached, and a forked pid is fresh. -/
theorem winv_event_run (st : Broker) (s : Nat) (sendOk : Nat → Bool)
    (forkRes : Option Nat) (t cm : Nat) (h : WInv st)
    (e0 : Event) (he0 : e0 ∈ st.events) (he0s : e0.seqnum = s)
    (he0w : e0.worker = none)
    (hfork : ∀ q, forkRes = some q → ∀ x ∈ st.workers, x.pid ≠ q) :
    WInv (event_run st s sendOk forkRes t cm) := by
  unfold event_run
  have hpids := event_run_scan_pids sendOk s st.workers
  rcases hatt : (event_run_scan sendOk s st.workers).2 with _ | p
  · -- no idle worker accepted the event
    simp only [event_run_att]
    have hrel : ∀ w' ∈ (event_run_scan sendOk s st.workers).1,
        ∃ w ∈ st.workers, w'.pid = w.pid ∧ w'.event = w.event ∧
          (w' = w ∨ w'.state = .killed) := by
      intro w' hw'
      obtain ⟨w, hw, hr⟩ := event_run_scan_rev sendOk s st.workers w' hw'
      rw [hatt] at hr
      exact ⟨w, hw, hr.of_none⟩
    have hrelf : ∀ w ∈ st.workers,
        ∃ w' ∈ (event_run_scan sendOk s st.workers).1, w'.pid = w.pid ∧
          w'.event = w.event ∧ (w' = w ∨ w'.state = .killed) := by
      intro w hw
      obtain ⟨w', hw', hr⟩ := event_run_scan_fwd sendOk s st.workers w hw
      rw [hatt] at hr
      exact ⟨w', hw', hr.of_none⟩
    have hmid : WInv { st with
        workers := (event_run_scan sendOk s st.workers).1 } := by
      constructor
      · exact h.seq_nodup
      · rw [hpids]; exact h.pid_nodup
      · intro w' hw' s'' hs''
        obtain ⟨w, hw, hpid, hev, _⟩ := hrel w' hw'
        obtain ⟨e1, he1, hseq1, hworker1⟩ := h.link_we w hw s'' (hev ▸ hs'')
        exact ⟨e1, he1, hseq1, hpid ▸ hworker1⟩
      · intro e he q hq
        obtain ⟨w0, hw0, hw0pid, hw0ev⟩ := h.link_ew e he q hq
        obtain ⟨w', hw', hpid, hev, _⟩ := hrelf w0 hw0
        exact ⟨w', hw', by rw [hpid, hw0pid], by rw [hev, hw0ev]⟩
      · intro w' hw' hidle
        obtain ⟨w, hw, _, hev, hcase⟩ := hrel w' hw'
        rcases hcase with rfl | hkilled
        · exact h.idle_no_event _ hw hidle
        · rw [hkilled] at hidle; cases hidle
    split
    · exact hmid
    · unfold worker_spawn
      rcases forkRes with _ | q
      · -- fork failed: only event states are rewritten
        constructor
        · rw [map_key_eq st.events (requeue_event_at s) Event.seqnum
            (requeue_event_at_seqnum s)]
          exact h.seq_nodup
        · rw [hpids]; exact h.pid_nodup
        · intro w' hw' s'' hs''
          obtain ⟨e1, he1, hseq1, hworker1⟩ := hmid.link_we w' hw' s'' hs''
          exact ⟨requeue_event_at s e1, List.mem_map_of_mem _ he1,
            by rw [requeue_event_at_seqnum, hseq1],
            by rw [requeue_event_at_worker]; exact hworker1⟩
        · intro e' he' q hq
          obtain ⟨e1, he1, rfl⟩ := List.mem_map.mp he'
          rw [requeue_event_at_worker] at hq
          obtain ⟨w0, hw0, hw0pid, hw0ev⟩ := hmid.link_ew e1 he1 q hq
          exact ⟨w0, hw0, hw0pid, by rw [requeue_event_at_seqnum]; exact hw0ev⟩
        · exact hmid.idle_no_event
      · -- spawn succeeded with a fresh pid q
        have hqfresh : ∀ x ∈ st.workers, x.pid ≠ q := hfork q rfl
        constructor
        · rw [map_key_eq st.events (attach_event_at s q t) Event.seqnum
            (attach_event_at_seqnum s q t)]
          exact h.seq_nodup
        · rw [List.map_append, hpids]
          rw [List.nodup_append]
          refine ⟨h.pid_nodup, List.nodup_singleton _, ?_⟩
          intro a ha
          simp only [List.map_cons, List.map_nil, List.mem_singleton]
          obtain ⟨x, hx, rfl⟩ := List.mem_map.mp ha
          intro hcontra
          exact hqfresh x hx (by simpa using hcontra)
        · intro w' hw' s'' hs''
          rcases List.mem_append.mp hw' with hw' | hw'
          · obtain ⟨e1, he1, hseq1, hworker1⟩ := hmid.link_we w' hw' s'' hs''
            have hne : e1.seqnum ≠ s := by
              intro hcontra
              have : e1 = e0 := h.event_eq he1 he0 (by omega)
              rw [this, he0w] at hworker1
              cases hworker1
            refine ⟨attach_event_at s q t e1, List.mem_map_of_mem _ he1, ?_, ?_⟩
            · rw [attach_event_at_seqnum, hseq1]
            · rw [attach_event_at_of_ne s q t e1 hne]
              exact hworker1
          · have hw'' : w' = { pid := q, state := .running, event := some s } := by
              simpa using hw'
            subst hw''
            simp only at hs''
            cases hs''
            refine ⟨attach_event_at s q t e0, List.mem_map_of_mem _ he0, ?_, ?_⟩
            · rw [attach_event_at_of_eq s q t e0 he0s]
              exact he0s
            · rw [attach_event_at_of_eq s q t e0 he0s]
              rfl
        · intro e' he' q' hq'
          obtain ⟨e1, he1, rfl⟩ := List.mem_map.mp he'
          by_cases heq : e1.seqnum = s
          · rw [attach_event_at_of_eq s q t e1 heq] at hq' ⊢
            have hq'' : q' = q := by
              simpa [attach_event] using hq'.symm
            rw [hq'']
            refine ⟨{ pid := q, state := .running, event := some s },
              List.mem_append_right _ (List.mem_singleton.mpr rfl), rfl, ?_⟩
            simp [attach_event, heq]
          · rw [attach_event_at_of_ne s q t e1 heq] at hq' ⊢
            obtain ⟨w0, hw0, hw0pid, hw0ev⟩ := hmid.link_ew e1 he1 q' hq'
            exact ⟨w0, List.mem_append_left _ hw0, hw0pid, hw0ev⟩
        · intro w' hw' hidle
          rcases List.mem_append.mp hw' with hw' | hw'
          · exact hmid.idle_no_event w' hw' hidle
          · have hw'' : w' = { pid := q, state := .running, event := some s } := by
              simpa using hw'
            rw [hw''] at hidle
            cases hidle
  · -- an idle worker accepted the event and was attached
    simp only [event_run_att]
    obtain ⟨wa, hwamem, hwapid, hwastate, hwaev⟩ :=
      event_run_scan_att sendOk s st.workers p hatt
    constructor
    · rw [map_key_eq st.events (attach_event_at s p t) Event.seqnum
        (attach_event_at_seqnum s p t)]
      exact h.seq_nodup
    · rw [hpids]; exact h.pid_nodup
    · intro w' hw' s'' hs''
      obtain ⟨w, hw, hrel⟩ := event_run_scan_rev sendOk s st.workers w' hw'
      rw [hatt] at hrel
      rcases hrel with rfl | ⟨hidle0, rfl⟩ | ⟨hidle0, hpq, rfl⟩
      · -- untouched worker
        obtain ⟨e1, he1, hseq1, hworker1⟩ := h.link_we w' hw s'' hs''
        have hne : e1.seqnum ≠ s := by
          intro hcontra
          have : e1 = e0 := h.event_eq he1 he0 (by omega)
          rw [this, he0w] at hworker1
          cases hworker1
        refine ⟨attach_event_at s p t e1, List.mem_map_of_mem _ he1, ?_, ?_⟩
        · rw [attach_event_at_seqnum, hseq1]
        · rw [attach_event_at_of_ne s p t e1 hne]
          exact hworker1
      · -- killed worker: event pointer preserved
        have hsq3 : w.event = some s'' := hs''
        obtain ⟨e1, he1, hseq1, hworker1⟩ := h.link_we w hw s'' hsq3
        have hne : e1.seqnum ≠ s := by
          intro hcontra
          have : e1 = e0 := h.event_eq he1 he0 (by omega)
          rw [this, he0w] at hworker1
          cases hworker1
        refine ⟨attach_event_at s p t e1, List.mem_map_of_mem _ he1, ?_, ?_⟩
        · rw [attach_event_at_seqnum, hseq1]
        · rw [attach_event_at_of_ne s p t e1 hne]
          exact hworker1
      · -- the attached worker
        have hsq3 : s'' = s := by
          simpa using hs''.symm
        rw [hsq3]
        injection hpq with hpq'
        refine ⟨attach_event_at s p t e0, List.mem_map_of_mem _ he0, ?_, ?_⟩
        · rw [attach_event_at_of_eq s p t e0 he0s]
          exact he0s
        · rw [attach_event_at_of_eq s p t e0 he0s]
          simp [attach_event, hpq']
    · intro e' he' q' hq'
      obtain ⟨e1, he1, rfl⟩ := List.mem_map.mp he'
      by_cases heq : e1.seqnum = s
      · rw [attach_event_at_of_eq s p t e1 heq] at hq' ⊢
        have hq'' : q' = p := by
          simpa [attach_event] using hq'.symm
        rw [hq'']
        refine ⟨wa, hwamem, hwapid, ?_⟩
        rw [hwaev]
        simp [attach_event, heq]
      · rw [attach_event_at_of_ne s p t e1 heq] at hq' ⊢
        obtain ⟨w0, hw0, hw0pid, hw0ev⟩ := h.link_ew e1 he1 q' hq'
        obtain ⟨w', hw', hrel⟩ := event_run_scan_fwd sendOk s st.workers w0 hw0
        rw [hatt] at hrel
        rcases hrel with rfl | ⟨hidle0, rfl⟩ | ⟨hidle0, hpq, rfl⟩
        · exact ⟨_, hw', hw0pid, hw0ev⟩
        · exact ⟨_, hw', hw0pid, hw0ev⟩
        · have := h.idle_no_event w0 hw0 hidle0
          rw [this] at hw0ev
          cases hw0ev
    · intro w' hw' hidle
      obtain ⟨w, hw, hrel⟩ := event_run_scan_rev sendOk s st.workers w' hw'
      rw [hatt] at hrel
      rcases hrel with rfl | ⟨hidle0, rfl⟩ | ⟨hidle0, hpq, rfl⟩
      · exact h.idle_no_event _ hw hidle
      · cases hidle
      · cases hidle

/-- Every broker operation preserves the invariant. -/
theorem winv_applyOp (st : Broker) (op : Op) (h : WInv st) :
    WInv (applyOp st op) := by
  cases op with
  | insert d =>
    simp only [applyOp]
    split
    · exact h
    · next hguard =>
      refine winv_insert st d h ?_
      intro e he hcontra
      exact hguard (List.any_eq_true.mpr ⟨e, he, by simpa using hcontra⟩)
  | run s sendOk forkRes t cm =>
    simp only [applyOp]
    split
    · next hguard =>
      rw [Bool.and_eq_true] at hguard
      obtain ⟨hev, hfork⟩ := hguard
      obtain ⟨e0, he0, hprops⟩ := List.any_eq_true.mp hev
      simp only [Bool.and_eq_true, beq_iff_eq] at hprops
      refine winv_event_run st s sendOk forkRes t cm h e0 he0 hprops.1.1
        hprops.2 ?_
      intro q hq x hx
      rcases forkRes with _ | q0
      · cases hq
      · injection hq with hq'
        simp only [Bool.and_eq_true, bne_iff_ne, Bool.not_eq_true'] at hfork
        intro hcontra
        have hx' : x.pid = q0 := by rw [hcontra, hq']
        have hany : st.workers.any (fun w => w.pid == q0) = true :=
          List.any_eq_true.mpr ⟨x, hx, by simpa using hx'⟩
        rw [hany] at hfork
        cases hfork.1
    · exact h
  | complete sz ucred => exact winv_on_worker st sz ucred h
  | childExit p status => exact winv_on_child_exit st p status h
  | cleanup ty => exact winv_cleanup st ty h
  | killAll => exact winv_worker_kill st h


/-- Every state reachable from startup satisfies the invariant. -/
theorem winv_runOps (ops : List Op) : WInv (runOps ops) := by
  suffices hgen : ∀ st, WInv st → WInv (ops.foldl applyOp st) from
    hgen Broker.init winv_init
  induction ops with
  | nil => exact fun st hst => hst
  | cons op ops ih => exact fun st hst => ih _ (winv_applyOp st op hst)

/-- C4: at every reachable broker state (any sequence of insert, dispatch,
completion, child-exit, cleanup and kill-all operations from startup), the
worker/event attachment back-pointers are mutual, and each worker is
attached to at most one event and each event to at most one worker. -/
theorem c4_attachment_mutual (ops : List Op) :
    (∀ w ∈ (runOps ops).workers, ∀ s, w.event = some s →
      ∃ e ∈ (runOps ops).events, e.seqnum = s ∧ e.worker = some w.pid) ∧
    (∀ e ∈ (runOps ops).events, ∀ p, e.worker = some p →
      ∃ w ∈ (runOps ops).workers, w.pid = p ∧ w.event = some e.seqnum) ∧
    (∀ e1 ∈ (runOps ops).events, ∀ e2 ∈ (runOps ops).events, ∀ p,
      e1.worker = some p → e2.worker = some p → e1 = e2) ∧
    (∀ w1 ∈ (runOps ops).workers, ∀ w2 ∈ (runOps ops).workers, ∀ s,
      w1.event = some s → w2.event = some s → w1 = w2) := by
  have h := winv_runOps ops
  refine ⟨h.link_we, h.link_ew, ?_, ?_⟩
  · intro e1 he1 e2 he2 p hp1 hp2
    obtain ⟨w1, hw1, hw1pid, hw1ev⟩ := h.link_ew e1 he1 p hp1
    obtain ⟨w2, hw2, hw2pid, hw2ev⟩ := h.link_ew e2 he2 p hp2
    have hw12 : w1 = w2 := h.worker_eq hw1 hw2 (by rw [hw1pid, hw2pid])
    rw [hw12, hw2ev] at hw1ev
    injection hw1ev with hseq
    exact h.event_eq he1 he2 hseq.symm
  · intro w1 hw1 w2 hw2 s hs1 hs2
    obtain ⟨e1, he1, he1seq, he1w⟩ := h.link_we w1 hw1 s hs1
    obtain ⟨e2, he2, he2seq, he2w⟩ := h.link_we w2 hw2 s hs2
    have he12 : e1 = e2 := h.event_eq he1 he2 (by rw [he1seq, he2seq])
    rw [he12, he2w] at he1w
    injection he1w with hpid
    exact h.worker_eq hw1 hw2 hpid.symm

/-- A concrete uevent for exercising the broker operations. -/
def c4wDevice : Device :=
  { seqnum := 1, devpath := "/devices/a".toList, devpath_old := none,
    devnum := ⟨8, 0⟩, subsystem := "block".toList, ifindex := 0, id := 7 }

/-- Insert, dispatch to a fresh worker, completion, reap, cleanup,
kill-all. -/
def c4wOps : List Op :=
  [.insert c4wDevice, .run 1 (fun _ => true) (some 5) 0 4,
   .complete 0 (some 5), .childExit 5 (.exited 0), .cleanup none, .killAll]

theorem c4_attachment_mutual_witness :
    (∀ w ∈ (runOps c4wOps).workers, ∀ s, w.event = some s →
      ∃ e ∈ (runOps c4wOps).events, e.seqnum = s ∧ e.worker = some w.pid) ∧
    (∀ e ∈ (runOps c4wOps).events, ∀ p, e.worker = some p →
      ∃ w ∈ (runOps c4wOps).workers, w.pid = p ∧ w.event = some e.seqnum) ∧
    (∀ e1 ∈ (runOps c4wOps).events, ∀ e2 ∈ (runOps c4wOps).events, ∀ p,
      e1.worker = some p → e2.worker = some p → e1 = e2) ∧
    (∀ w1 ∈ (runOps c4wOps).workers, ∀ w2 ∈ (runOps c4wOps).workers, ∀ s,
      w1.event = some s → w2.event = some s → w1 = w2) :=
  c4_attachment_mutual c4wOps

/-! ## C7, C8, C9, C10: dispatch failure paths and handler behaviour -/

/-- The cumulative effect of a dispatch scan in which every unicast send
fails: each idle worker is killed, others are untouched. -/
def kill_idle (w : Worker) : Worker :=
  if w.state == WorkerState.idle then { w with state := .killed } else w

theorem event_run_scan_all_fail (sendOk : Nat → Bool) (s : Nat)
    (ws : List Worker) (hfail : ∀ p, sendOk p = false) :
    event_run_scan sendOk s ws = (ws.map kill_idle, none) := by
  induction ws with
  | nil => rfl
  | cons w ws ih =>
    simp only [event_run_scan, List.map_cons]
    by_cases hidle : (w.state == WorkerState.idle) = true
    · rw [if_pos hidle, if_neg (by rw [hfail w.pid]; intro hc; cases hc), ih]
      unfold kill_idle
      rw [if_pos hidle]
    · rw [if_neg hidle, ih]
      unfold kill_idle
      rw [if_neg hidle]

theorem event_run_scan_no_idle (sendOk : Nat → Bool) (s : Nat)
    (ws : List Worker) (h : ∀ w ∈ ws, w.state ≠ .idle) :
    event_run_scan sendOk s ws = (ws, none) := by
  induction ws with
  | nil => rfl
  | cons w ws ih =>
    have hw := h w (List.mem_cons_self w ws)
    have hrest := ih (fun x hx => h x (List.mem_cons_of_mem _ hx))
    simp only [event_run_scan]
    rw [if_neg (by simpa using hw), hrest]

theorem requeue_map_id (st : Broker) (s : Nat)
    (hqueued : ∀ e ∈ st.events, e.seqnum = s → e.state = .queued) :
    st.events.map (requeue_event_at s) = st.events := by
  refine map_eq_self_of _ _ ?_
  intro e he
  unfold requeue_event_at
  split
  · next heq =>
    have hst : e.state = .queued := hqueued e he (by simpa using heq)
    rw [← hst]
  · rfl

/-- Two idle workers; the unicast send to pid 1 fails, pid 2 accepts. -/
def c7St : Broker :=
  ⟨[mkEvent 1 "/devices/a"],
   [{ pid := 1, state := .idle, event := none },
    { pid := 2, state := .idle, event := none }]⟩

/-- The send oracle of the C7 counterexample: only pid 2 accepts. -/
def c7Send : Nat → Bool := fun p => p == 2

/-- C7 fails as stated: after the failed send to worker 1 (which is killed),
`event_run` CONTINUES with the remaining idle workers — worker 2 accepts the
event, which ends up `Running` and attached in the same dispatch attempt,
not left `Queued` until the next pass. -/
theorem c7_counterexample :
    (event_run c7St 1 c7Send none 0 10).workers.map Worker.state =
      [.killed, .running] ∧
    (event_run c7St 1 c7Send none 0 10).events.map Event.state = [.running] ∧
    (event_run c7St 1 c7Send none 0 10).events.map Event.worker = [some 2] := by
  decide

/-- C7 (amended): every idle worker whose unicast send fails is killed and
set `Killed`, and the scan continues; when every send fails and no new
worker can be spawned (pool at cap, or fork fails), the event is left
`Queued`, attached to no worker, until the next dispatch pass — the broker
state changes only by the idle workers turning `Killed`. -/
theorem c7_send_fail (st : Broker) (s : Nat) (sendOk : Nat → Bool)
    (forkRes : Option Nat) (t cm : Nat)
    (hfail : ∀ p, sendOk p = false)
    (hnospawn : cm ≤ st.workers.length ∨ forkRes = none)
    (hqueued : ∀ e ∈ st.events, e.seqnum = s → e.state = .queued) :
    event_run st s sendOk forkRes t cm =
      { st with workers := st.workers.map kill_idle } := by
  unfold event_run
  rw [event_run_scan_all_fail sendOk s st.workers hfail]
  simp only [event_run_att]
  by_cases hcap : cm ≤ (st.workers.map kill_idle).length
  · rw [if_pos hcap]
  · rw [if_neg hcap]
    rw [List.length_map] at hcap
    rcases hnospawn with hle | rfl
    · exact absurd hle hcap
    · unfold worker_spawn
      rw [show ({ st with workers := st.workers.map kill_idle } : Broker).events
          = st.events from rfl]
      rw [requeue_map_id st s hqueued]

/-- One idle worker whose send fails; the pool is at cap. -/
def c7wSt : Broker :=
  ⟨[mkEvent 1 "/devices/a"], [{ pid := 1, state := .idle, event := none }]⟩

theorem c7_send_fail_witness :
    event_run c7wSt 1 (fun _ => false) none 0 1 =
      { c7wSt with workers := c7wSt.workers.map kill_idle } :=
  c7_send_fail c7wSt 1 (fun _ => false) none 0 1 (fun _ => rfl)
    (Or.inl (by decide)) (by decide)

/-- A broker with a single idle worker holding no event. -/
def c8St : Broker := ⟨[], [{ pid := 1, state := .idle, event := none }]⟩

/-- C8 fails as stated: a repeated completion message for an already-idle
worker IS a no-op on broker state, but it is processed silently — the
handler emits no warning for this case (`on_worker` only warns on malformed
sizes, missing credentials, or untracked pids). -/
theorem c8_counterexample :
    on_worker_msg c8St 0 (some 1) = (c8St, []) := by
  decide

/-- C8 (amended): a repeated completion message carrying the pid of an
already-idle worker holding no event is a no-op on broker state — the
worker stays `Idle`, no event is freed, queue and worker map are unchanged —
and no log message (in particular no warning) is emitted. -/
theorem c8_idle_noop (st : Broker) (p : Nat) (w : Worker)
    (hp : p ≠ 0)
    (hfind : st.workers.find? (fun x => x.pid == p) = some w)
    (hidle : w.state = .idle) (hnoev : w.event = none)
    (huniq : ∀ x ∈ st.workers, x.pid = p → x = w) :
    on_worker_msg st 0 (some p) = (st, []) := by
  have hstep : on_worker_msg st 0 (some p) =
      on_worker_found st p (st.workers.find? (fun x => x.pid == p)) := by
    unfold on_worker_msg
    rw [if_neg (by simp [worker_message_size])]
    exact if_neg hp
  rw [hstep, hfind]
  simp only [on_worker_found]
  rw [if_neg (by rw [hidle]; intro hcontra; cases hcontra)]
  rw [hnoev]
  simp only [event_free_opt]
  have hmap : st.workers.map (idle_worker p) = st.workers := by
    refine map_eq_self_of _ _ ?_
    intro x hx
    unfold idle_worker
    split
    · next hxp =>
      have hxw : x = w := huniq x hx (by simpa using hxp)
      subst hxw
      rw [← hidle]
    · rfl
  rw [hmap]

theorem c8_idle_noop_witness : on_worker_msg c8St 0 (some 1) = (c8St, []) ∧
    (1 : Nat) ≠ 0 :=
  ⟨c8_idle_noop c8St 1 { pid := 1, state := .idle, event := none }
    (by decide) (by decide) (by decide) (by decide) (by decide), by decide⟩

/-- Every worker of `event_free`'s result corresponds pid-wise to a worker
of the input. -/
theorem event_free_workers_pid (st : Broker) (s : Nat) :
    ∀ x ∈ (event_free st s).workers, ∃ x0 ∈ st.workers, x.pid = x0.pid := by
  unfold event_free
  rcases hfind : st.events.find? (fun e => e.seqnum == s) with _ | e
  · rw [hfind]; intro x hx; exact ⟨x, hx, rfl⟩
  · rw [hfind]
    simp only [event_free_go]
    rcases hew : e.worker with _ | p
    · simp only [nil_worker_opt]
      intro x hx
      exact ⟨x, hx, rfl⟩
    · simp only [nil_worker_opt]
      intro x hx
      obtain ⟨x0, hx0, rfl⟩ := List.mem_map.mp hx
      exact ⟨x0, hx0, nil_worker_pid p x0⟩

theorem event_free_opt_workers_pid (st : Broker) (oev : Option Nat) :
    ∀ x ∈ (event_free_opt st oev).workers, ∃ x0 ∈ st.workers, x.pid = x0.pid := by
  rcases oev with _ | s
  · intro x hx; exact ⟨x, hx, rfl⟩
  · exact event_free_workers_pid st s

/-- After `worker_free st p`, no worker carries pid `p`. -/
theorem worker_free_pid_gone (st : Broker) (p : Nat) :
    ∀ x ∈ (worker_free st p).workers, x.pid ≠ p := by
  unfold worker_free
  rcases hfind : st.workers.find? (fun w => w.pid == p) with _ | w
  · rw [hfind]
    intro x hx hcontra
    have hnone := List.find?_eq_none.mp hfind x hx
    exact hnone (by simpa using hcontra)
  · rw [hfind]
    simp only [worker_free_go]
    intro x hx
    obtain ⟨x0, hx0, hpid⟩ := event_free_opt_workers_pid _ w.event x hx
    rw [hpid]
    exact pid_ne_of_mem_wfilter hx0

/-- A running event attached to worker 5. -/
def c9Ev : Event :=
  { mkEvent 1 "/devices/a" with
    state := .running, worker := some 5, dev := 7, dev_kernel := 7 }

/-- Broker in which worker 5 is processing event 1. -/
def c9St : Broker :=
  ⟨[c9Ev], [{ pid := 5, state := .running, event := some 1 }]⟩

/-- C9 fails as stated: a worker reaped with a CLEAN exit (status 0) while
its record still holds an event (e.g. the completion datagram is still in
the socket buffer when the worker is terminated) is freed WITHOUT deleting
the device's persistence record, untagging, or re-forwarding — the failure
side effects happen only for abnormal exits. -/
theorem c9_counterexample :
    on_child_exit c9St 5 (.exited 0) = ((⟨[], []⟩ : Broker), []) := by
  decide

/-- C9 (amended): for every reaped worker whose record holds an event at
reap time and which terminated ABNORMALLY (killed by a signal, or exited
with a non-zero status), the child-exit handler deletes that device's
persistence record, untags its indices, re-forwards the original unamended
kernel event, and frees the worker (removing it from the pid map).  On a
clean exit the worker and its event are freed without those side
effects. -/
theorem c9_abnormal_exit (st : Broker) (p : Nat) (w : Worker) (s : Nat)
    (e : Event) (status : ExitStatus)
    (hfind : st.workers.find? (fun x => x.pid == p) = some w)
    (hwe : w.event = some s)
    (hfinde : st.events.find? (fun x => x.seqnum == s) = some e)
    (habn : status.abnormal = true)
    (hnost : status ≠ .stopped) (hnoco : status ≠ .continued) :
    on_child_exit st p status =
      (worker_free st p,
       [.dbDelete e.dev, .untagIndex e.dev, .forwardKernel e.dev_kernel]) ∧
    ∀ x ∈ (on_child_exit st p status).1.workers, x.pid ≠ p := by
  have hmain : on_child_exit st p status =
      (worker_free st p,
       [.dbDelete e.dev, .untagIndex e.dev, .forwardKernel e.dev_kernel]) := by
    unfold on_child_exit
    rw [hfind]
    cases status with
    | stopped => exact absurd rfl hnost
    | continued => exact absurd rfl hnoco
    | exited c =>
      simp only [on_child_exit_found]
      rw [if_pos habn, hwe]
      simp only [failed_event_actions]
      rw [hfinde]
      simp only [failed_event_actions_go]
    | signaled k =>
      simp only [on_child_exit_found]
      rw [if_pos habn, hwe]
      simp only [failed_event_actions]
      rw [hfinde]
      simp only [failed_event_actions_go]
  refine ⟨hmain, ?_⟩
  rw [hmain]
  intro x hx
  exact worker_free_pid_gone st p x hx

/-- Worker 5 crashes (killed by SIGKILL = signal 9) while holding event 1. -/
theorem c9_abnormal_exit_witness :
    on_child_exit c9St 5 (.signaled 9) =
      (worker_free c9St 5,
       [.dbDelete c9Ev.dev, .untagIndex c9Ev.dev,
        .forwardKernel c9Ev.dev_kernel]) ∧
    ∀ x ∈ (on_child_exit c9St 5 (.signaled 9)).1.workers, x.pid ≠ 5 :=
  c9_abnormal_exit c9St 5 { pid := 5, state := .running, event := some 1 } 1
    c9Ev (.signaled 9) (by decide) (by decide) (by decide) (by decide)
    (by decide) (by decide)

/-- C10: if no idle worker exists, the pool is below cap, and the fork
fails, the dispatch attempt leaves the broker state unchanged — the event
remains queued, unattached, and the worker map is untouched, so a later
start pass can retry it. -/
theorem c10_fork_fail_noop (st : Broker) (s : Nat) (sendOk : Nat → Bool)
    (t cm : Nat)
    (hnoidle : ∀ w ∈ st.workers, w.state ≠ .idle)
    (hcap : st.workers.length < cm)
    (hqueued : ∀ e ∈ st.events, e.seqnum = s → e.state = .queued) :
    event_run st s sendOk none t cm = st := by
  unfold event_run
  rw [event_run_scan_no_idle sendOk s st.workers hnoidle]
  simp only [event_run_att]
  rw [if_neg (by omega)]
  unfold worker_spawn
  rw [show ({ st with workers := st.workers } : Broker).events = st.events
    from rfl]
  rw [requeue_map_id st s hqueued]

/-- A queued event and a busy (running) pool of one, cap 4, fork failure. -/
def c10St : Broker :=
  ⟨[mkEvent 1 "/devices/a"], [{ pid := 9, state := .running, event := none }]⟩

theorem c10_fork_fail_noop_witness :
    event_run c10St 1 (fun _ => true) none 0 4 = c10St :=
  c10_fork_fail_noop c10St 1 (fun _ => true) 0 4 (by decide) (by decide)
    (by decide)

/-! ## The reactor loop and the `/run/udev/queue` marker (C6) -/

/-- One pass of `event_queue_start` (udevd.c lines 589-604) over the seqnums
present at entry: skip non-queued events, run `is_devpath_busy` (whose
`delaying_seqnum` update is written back into the queue), dispatch
non-blocked events via `event_run`. -/
def event_queue_start_go (sendOk : Nat → Bool) (forkPid : Nat → Option Nat)
    (t cm : Nat) : Broker → List Nat → Broker
  | st, [] => st
  | st, s :: rest =>
    match st.events.find? (fun e => e.seqnum == s) with
    | none => event_queue_start_go sendOk forkPid t cm st rest
    | some e =>
      if e.state == EventState.queued then
        let r := is_devpath_busy e st.events
        let st1 : Broker := { st with events := st.events.map (fun x =>
          if x.seqnum == s then r.2 else x) }
        if r.1 then event_queue_start_go sendOk forkPid t cm st1 rest
        else event_queue_start_go sendOk forkPid t cm
          (event_run st1 s sendOk (forkPid s) t cm) rest
      else event_queue_start_go sendOk forkPid t cm st rest

/-- `event_queue_start`: head-to-tail scan of the queue, dispatching each
queued event that is not blocked. -/
def event_queue_start (st : Broker) (sendOk : Nat → Bool)
    (forkPid : Nat → Option Nat) (t cm : Nat) : Broker :=
  event_queue_start_go sendOk forkPid t cm st (st.events.map Event.seqnum)

/-- The hanging-worker check of the reactor's timeout branch (udevd.c lines
1472-1496): kill running workers whose event exceeded the fatal timeout;
warn (once) past the warn timeout. -/
def timeout_sweep (b : Broker) (ts warnU killU : Nat) : Broker :=
  { workers := b.workers.map (fun w =>
      if w.state == WorkerState.running then
        match (w.event.bind (fun s => b.events.find? (fun e => e.seqnum == s))) with
        | some e => if killU < ts - e.start_usec then { w with state := .killed }
                    else w
        | none => w
      else w),
    events := b.events.map (fun e =>
      if (b.workers.any (fun w => w.state == WorkerState.running &&
            w.event == some e.seqnum)) &&
         decide (warnU < ts - e.start_usec) &&
         decide (ts - e.start_usec ≤ killU) && !e.warned
      then { e with warned := true } else e) }

/-- The reactor-level mutable state: the broker plus the daemon flags and
the presence of the `/run/udev/queue` marker file. -/
structure DaemonState where
  broker : Broker
  queue_marker : Bool
  udev_exit : Bool
  stop_exec_queue : Bool
  reload : Bool
  children_max : Nat
  rules_loaded : Bool
  properties : List (List Char × Option (List Char))
  stopped : Bool
deriving DecidableEq, Repr

/-- `event_queue_update` (udevd.c lines 990-1002): touch `/run/udev/queue`
when the event list is non-empty, unlink it when empty. -/
def event_queue_update (st : DaemonState) : DaemonState :=
  { st with queue_marker := !st.broker.events.isEmpty }

/-- A decoded control message (the getters of `udev_ctrl_msg`). -/
structure CtrlMsg where
  set_log_level : Option Nat
  stop_exec_queue : Bool
  start_exec_queue : Bool
  reload : Bool
  set_env : Option (List Char)
  set_children_max : Option Nat
  ping : Bool
  exit : Bool
deriving DecidableEq, Repr

/-- `udev_list_entry_add` upsert semantics on the properties list. -/
def properties_upsert (props : List (List Char × Option (List Char)))
    (k : List Char) (v : Option (List Char)) :
    List (List Char × Option (List Char)) :=
  if props.any (fun kv => kv.1 == k) then
    props.map (fun kv => if kv.1 == k then (k, v) else kv)
  else props ++ [(k, v)]

/-- The SET_ENV payload handling of `on_ctrl_msg`: split `k=v` at the first
`=`; an empty value unsets the key; a missing `=` is logged as an error and
ignored. -/
def set_env_apply (props : List (List Char × Option (List Char)))
    (str : List Char) : List (List Char × Option (List Char)) :=
  match str.dropWhile (fun c => c != '=') with
  | [] => props
  | _ :: val =>
    if val.isEmpty then
      properties_upsert props (str.takeWhile (fun c => c != '=')) none
    else
      properties_upsert props (str.takeWhile (fun c => c != '=')) (some val)

/-- `on_ctrl_msg` (udevd.c lines 700-783): apply each administrative command
carried by the message.  SET_LOG_LEVEL and SET_ENV kill the workers so they
re-inherit the new settings; EXIT sets `udev_exit`. -/
def on_ctrl_msg (st : DaemonState) (m : CtrlMsg) : DaemonState :=
  let st1 := match m.set_log_level with
    | some _ => { st with broker := worker_kill st.broker }
    | none => st
  let st2 := if m.stop_exec_queue then { st1 with stop_exec_queue := true }
    else st1
  let st3 := if m.start_exec_queue then { st2 with stop_exec_queue := false }
    else st2
  let st4 := if m.reload then { st3 with reload := true } else st3
  let st5 := match m.set_env with
    | some str => { st4 with
        properties := set_env_apply st4.properties str,
        broker := worker_kill st4.broker }
    | none => st4
  let st6 := match m.set_children_max with
    | some n => { st5 with children_max := n }
    | none => st5
  -- PING is observability only (log line)
  if m.exit then { st6 with udev_exit := true } else st6

/-- The readiness and oracle inputs of one reactor iteration. -/
structure IterInput where
  timed_out : Bool
  worker_msgs : List (Nat × Option Nat)
  uevents : List Device
  sig_term : Bool
  sig_hup : Bool
  child_exits : List (Nat × ExitStatus)
  inotify_devs : List Device
  ctrl : Option CtrlMsg
  rules_changed : Bool
  rules_load_ok : Bool
  send_ok : Nat → Bool
  fork_pid : Nat → Option Nat
  now : Nat
  warn_usec : Nat
  kill_usec : Nat

/-- The loop-top work between the handlers and the next `epoll_wait`
(udevd.c lines 1402-1452): on `udev_exit` unregister the sources, purge
queued events and kill the workers, leaving the loop once both containers
are empty (the exit path then unlinks the queue marker, line 1598);
otherwise refresh the queue marker ("tell settle that we are busy or
idle"). -/
def exit_drain (st : DaemonState) : Broker :=
  worker_kill (event_queue_cleanup st.broker (some .queued))

def loop_top (st : DaemonState) : DaemonState :=
  if st.udev_exit then
    if (exit_drain st).events.isEmpty && (exit_drain st).workers.isEmpty then
      { st with broker := exit_drain st, stopped := true, queue_marker := false }
    else
      event_queue_update { st with broker := exit_drain st }
  else
    event_queue_update st

/-- The idle-worker cleanup and hanging-event sweep of the reactor's
timeout branch (udevd.c lines 1456-1498), in the non-exiting case. -/
def reactor_timeout (st0 : DaemonState) (inp : IterInput) : DaemonState :=
  if inp.timed_out then
    let b := if st0.broker.events.isEmpty then worker_kill st0.broker
      else st0.broker
    { st0 with broker := timeout_sweep b inp.now inp.warn_usec inp.kill_usec }
  else st0

/-- The handler phase of one reactor iteration (udevd.c lines 1514-1593)
followed by the loop top: config/reload checks, then worker results, kernel
uevents, queue start, signals, and — unless exiting — inotify, marker
update and control. -/
def reactor_handlers_core (st1 : DaemonState) (inp : IterInput) : DaemonState :=
  let st2 := if inp.rules_changed then { st1 with reload := true } else st1
  let st3 := if st2.reload then
      { st2 with broker := worker_kill st2.broker, rules_loaded := false, reload := false }
    else st2
  let b4 := inp.worker_msgs.foldl (fun b msg => (on_worker_msg b msg.1 msg.2).1)
    st3.broker
  let st4 := { st3 with broker := b4 }
  let b5 := inp.uevents.foldl event_queue_insert st4.broker
  let st5 := { st4 with broker := b5 }
  let st6 :=
    if !st5.broker.events.isEmpty && !st5.udev_exit && !st5.stop_exec_queue then
      if st5.rules_loaded || inp.rules_load_ok then
        let b6 := event_queue_start st5.broker inp.send_ok inp.fork_pid inp.now
          st5.children_max
        { st5 with rules_loaded := true, broker := b6 }
      else { st5 with rules_loaded := false }
    else st5
  let st7 := if inp.sig_term then { st6 with udev_exit := true } else st6
  let st8 := if inp.sig_hup then { st7 with reload := true } else st7
  let b9 := inp.child_exits.foldl (fun b pe => (on_child_exit b pe.1 pe.2).1)
    st8.broker
  { st8 with broker := b9 }

def reactor_handlers (st1 : DaemonState) (inp : IterInput) : DaemonState :=
  let st9 := reactor_handlers_core st1 inp
  -- "we are shutting down, the events below are not handled anymore"
  if st9.udev_exit then loop_top st9 else
  let b10 := inp.inotify_devs.foldl event_queue_insert st9.broker
  let st10 := { st9 with broker := b10 }
  -- "tell settle that we are busy or idle, this needs to be before the
  -- PING handling"
  let st11 := event_queue_update st10
  let st12 := match inp.ctrl with
    | some m => on_ctrl_msg st11 m
    | none => st11
  loop_top st12

/-- One reactor iteration, from `epoll_wait` return to the next
`epoll_wait`: a timeout while exiting gives up and leaves the loop (the
exit path unlinks the queue marker); otherwise the timeout sweep runs,
followed by the handler phase and the loop top. -/
def reactor_iter (st0 : DaemonState) (inp : IterInput) : DaemonState :=
  if st0.stopped then st0 else
  if inp.timed_out && st0.udev_exit then
    { st0 with stopped := true, queue_marker := false }
  else
    reactor_handlers (reactor_timeout st0 inp) inp

theorem on_ctrl_msg_events (st : DaemonState) (m : CtrlMsg) :
    (on_ctrl_msg st m).broker.events = st.broker.events := by
  unfold on_ctrl_msg
  rcases m with ⟨sll, stq, seq, rld, env, scm, png, ext⟩
  rcases sll with _ | n <;> rcases env with _ | str <;> rcases scm with _ | cmn <;>
    simp only [] <;> split_ifs <;> rfl

theorem loop_top_ok (st : DaemonState) :
    (loop_top st).stopped = true ∨
    (loop_top st).queue_marker = !(loop_top st).broker.events.isEmpty := by
  unfold loop_top
  by_cases hexit : st.udev_exit = true
  · rw [if_pos hexit]
    by_cases hempty : ((exit_drain st).events.isEmpty &&
        (exit_drain st).workers.isEmpty) = true
    · rw [if_pos hempty]
      exact Or.inl rfl
    · rw [if_neg hempty]
      exact Or.inr rfl
  · rw [if_neg hexit]
    exact Or.inr rfl

theorem reactor_handlers_is_loop_top (st : DaemonState) (inp : IterInput) :
    ∃ y, reactor_handlers st inp = loop_top y := by
  unfold reactor_handlers
  by_cases hex : (reactor_handlers_core st inp).udev_exit = true
  · rw [if_pos hex]
    exact ⟨_, rfl⟩
  · rw [if_neg hex]
    exact ⟨_, rfl⟩

/-- Every non-stopping reactor iteration ends (at the `epoll_wait` point)
with a fresh queue marker. -/
theorem reactor_iter_ok (st : DaemonState) (inp : IterInput) :
    (reactor_iter st inp).stopped = true ∨
    (reactor_iter st inp).queue_marker =
      !(reactor_iter st inp).broker.events.isEmpty := by
  unfold reactor_iter
  split_ifs with h0 hbrk
  · exact Or.inl h0
  · exact Or.inl rfl
  · obtain ⟨y, hy⟩ := reactor_handlers_is_loop_top (reactor_timeout st inp) inp
    rw [hy]
    exact loop_top_ok y

/-- C6: at every quiescent point between handler invocations, the
`/run/udev/queue` marker (the boolean maintained by `event_queue_update`)
equals non-emptiness of the event list: (a) whenever an iteration of the
reactor does not leave the loop, the state it hands to `epoll_wait` has the
marker iff the event list is non-empty; (b) the marker refresh before the
control handler stays honest through it — `on_ctrl_msg` never changes the
event list. -/
theorem c6_settle_honest (st : DaemonState) (inp : IterInput) (m : CtrlMsg)
    (h : (reactor_iter st inp).stopped = false) :
    (reactor_iter st inp).queue_marker =
      !(reactor_iter st inp).broker.events.isEmpty ∧
    (on_ctrl_msg (event_queue_update st) m).broker.events =
      (event_queue_update st).broker.events := by
  refine ⟨?_, on_ctrl_msg_events (event_queue_update st) m⟩
  rcases reactor_iter_ok st inp with hstop | hmark
  · rw [hstop] at h; cases h
  · exact hmark

/-- A concrete idle daemon state. -/
def c6St : DaemonState :=
  { broker := ⟨[mkEvent 1 "/devices/a"], []⟩, queue_marker := false,
    udev_exit := false, stop_exec_queue := false, reload := false,
    children_max := 4, rules_loaded := true, properties := [],
    stopped := false }

/-- A PING control message. -/
def c6Ping : CtrlMsg :=
  { set_log_level := none, stop_exec_queue := false, start_exec_queue := false,
    reload := false, set_env := none, set_children_max := none, ping := true,
    exit := false }

/-- An iteration input delivering one uevent and a ping. -/
def c6Inp : IterInput :=
  { timed_out := false, worker_msgs := [], uevents := [c4wDevice],
    sig_term := false, sig_hup := false, child_exits := [],
    inotify_devs := [], ctrl := some c6Ping,
    rules_changed := false, rules_load_ok := true,
    send_ok := fun _ => false, fork_pid := fun _ => none, now := 0,
    warn_usec := 60, kill_usec := 180 }

theorem c6_settle_honest_witness :
    (reactor_iter c6St c6Inp).queue_marker =
      !(reactor_iter c6St c6Inp).broker.events.isEmpty ∧
    (on_ctrl_msg (event_queue_update c6St) c6Ping).broker.events =
      (event_queue_update c6St).broker.events :=
  c6_settle_honest c6St c6Inp c6Ping (by decide)

end Udevd
